import Mathlib

/-!
# drm_display: a shallow embedding of `drm_display.c`

The development follows the source file top to bottom.

* `F32` models the C type `float` as IEEE-754 binary32 with round-to-nearest,
  ties-to-even, every operation rounded to `float` (FLT_EVAL_METHOD 0).
  A finite value is kept as `m * 2^e`; gradual underflow below `2^-126` is
  modelled.  Infinities and NaN are not: no operation of
  `scale_and_center_image` on `int` arguments with positive sizes reaches
  them.
* C `int` values are integers (`Int`); `/` on `int` is `Int.tdiv`.  The index
  computations of lines 216-219 and 226 and the area product of line 92, which
  can leave the range of `int`, wrap to 32 bits (`to_int32`).
* The kernel interface (libdrm, stb_image) is a record of call outcomes
  (`World`); `main` is a function from that record to its exit code and its
  trace of calls.
-/

namespace DrmDisplay

/-! ## binary32 arithmetic -/

/-- A finite binary32 value, `m * 2^e`. -/
structure F32 where
  m : Int
  e : Int
deriving DecidableEq

namespace F32

/-- The rational number a float stands for. -/
def toRat (x : F32) : ℚ := (x.m : ℚ) * (2 : ℚ) ^ x.e

/-- Bit length minus one, by halving at most `fuel` times. -/
def log2Fuel : Nat → Nat → Nat
  | 0, _ => 0
  | fuel + 1, n => if n < 2 then 0 else log2Fuel fuel (n / 2) + 1

/-- Position of the leading bit of `n`: `floor (log2 n)` for `n > 0`. -/
def log2 (n : Nat) : Nat := log2Fuel n n

/-- For positive `a`, `b`: `floor (log2 (a / b))`. -/
def ilog2 (a b : Nat) : Int :=
  let la := log2 a
  let lb := log2 b
  if a * 2 ^ lb < b * 2 ^ la then (la : Int) - lb - 1 else (la : Int) - lb

/-- Nearest integer to `num / den`, ties to the even one. -/
def rne (num den : Nat) : Nat :=
  let q := num / den
  let r := num % den
  if 2 * r < den then q
  else if den < 2 * r then q + 1
  else if q % 2 = 0 then q else q + 1

/-- Round the positive number `(a / b) * 2^k` to binary32: 24 significant
bits, exponent of the leading bit not below `-126` (subnormals keep the
quantum `2^-149`). -/
def roundPos (a b : Nat) (k : Int) : F32 :=
  let e := max (ilog2 a b + k) (-126)
  let s := e - 23
  let t := k - s
  let m := if 0 ≤ t then rne (a * 2 ^ t.toNat) b else rne a (b * 2 ^ (-t).toNat)
  ⟨m, s⟩

/-- Round `(num / den) * 2^k` to binary32.  A zero denominator (a division by
zero, which yields an infinity or NaN in C) is outside the model and gives 0. -/
def round (num den : Int) (k : Int) : F32 :=
  if num = 0 ∨ den = 0 then ⟨0, 0⟩
  else
    let r := roundPos num.natAbs den.natAbs k
    if (num < 0) = (den < 0) then r else ⟨-r.m, r.e⟩

/-- The conversion `(float)n` of an `int`. -/
def ofInt (n : Int) : F32 := round n 1 0

/-- The operation `x / y` on `float`. -/
def div (x y : F32) : F32 := round x.m y.m (x.e - y.e)

/-- The operation `x * y` on `float`. -/
def mul (x y : F32) : F32 := round (x.m * y.m) 1 (x.e + y.e)

/-- The comparison `x < y` on `float`. -/
def lt (x y : F32) : Bool :=
  let e := min x.e y.e
  decide (x.m * 2 ^ (x.e - e).toNat < y.m * 2 ^ (y.e - e).toNat)

/-- The conversion `(int)x`: truncation toward zero. -/
def toInt (x : F32) : Int :=
  if 0 ≤ x.e then x.m * 2 ^ x.e.toNat else Int.tdiv x.m (2 ^ (-x.e).toNat)

end F32

/-! ## `scale_and_center_image` -/

/-- A C `int` holding `n` after two's complement wrap-around. -/
def to_int32 (n : Int) : Int := (n + 2 ^ 31) % 2 ^ 32 - 2 ^ 31

/-- Lines 191-193: `scale`, the smaller of the two axis ratios. -/
def scale (img_width img_height fb_width fb_height : Int) : F32 :=
  let scale_x := F32.div (F32.ofInt fb_width) (F32.ofInt img_width)
  let scale_y := F32.div (F32.ofInt fb_height) (F32.ofInt img_height)
  if F32.lt scale_x scale_y then scale_x else scale_y

/-- Line 195: `scaled_width = (int)(img_width * scale)`. -/
def scaled_width (img_width img_height fb_width fb_height : Int) : Int :=
  F32.toInt (F32.mul (F32.ofInt img_width) (scale img_width img_height fb_width fb_height))

/-- Line 196: `scaled_height = (int)(img_height * scale)`. -/
def scaled_height (img_width img_height fb_width fb_height : Int) : Int :=
  F32.toInt (F32.mul (F32.ofInt img_height) (scale img_width img_height fb_width fb_height))

/-- Line 199: `offset_x = (fb_width - scaled_width) / 2`, C division. -/
def offset_x (img_width img_height fb_width fb_height : Int) : Int :=
  Int.tdiv (fb_width - scaled_width img_width img_height fb_width fb_height) 2

/-- Line 200: `offset_y = (fb_height - scaled_height) / 2`, C division. -/
def offset_y (img_width img_height fb_width fb_height : Int) : Int :=
  Int.tdiv (fb_height - scaled_height img_width img_height fb_width fb_height) 2

/-- Lines 208-212: the source column sampled for scaled column `x`. -/
def src_x (img_width img_height fb_width fb_height x : Int) : Int :=
  let sx := F32.toInt (F32.div (F32.ofInt x) (scale img_width img_height fb_width fb_height))
  if sx ≥ img_width then img_width - 1 else sx

/-- Lines 209-213: the source row sampled for scaled row `y`. -/
def src_y (img_width img_height fb_width fb_height y : Int) : Int :=
  let sy := F32.toInt (F32.div (F32.ofInt y) (scale img_width img_height fb_width fb_height))
  if sy ≥ img_height then img_height - 1 else sy

/-- Line 216: `src_idx = (src_y * img_width + src_x) * 3`, each operation an
`int` operation. -/
def src_idx (img_width img_height fb_width fb_height x y : Int) : Int :=
  to_int32 (to_int32 (to_int32 (src_y img_width img_height fb_width fb_height y * img_width)
    + src_x img_width img_height fb_width fb_height x) * 3)

/-- Line 222: `dst_x = offset_x + x`. -/
def dst_x (img_width img_height fb_width fb_height x : Int) : Int :=
  offset_x img_width img_height fb_width fb_height + x

/-- Line 223: `dst_y = offset_y + y`. -/
def dst_y (img_width img_height fb_width fb_height y : Int) : Int :=
  offset_y img_width img_height fb_width fb_height + y

/-- Line 224: the guard `dst_x < fb_width && dst_y < fb_height`. -/
def dst_guard (img_width img_height fb_width fb_height x y : Int) : Bool :=
  decide (dst_x img_width img_height fb_width fb_height x < fb_width) &&
  decide (dst_y img_width img_height fb_width fb_height y < fb_height)

/-- Line 226: the cell index `dst_y * fb_width + dst_x` into `fb_data`, each
operation an `int` operation. -/
def dst_idx (img_width img_height fb_width fb_height x y : Int) : Int :=
  to_int32 (to_int32 (dst_y img_width img_height fb_width fb_height y * fb_width)
    + dst_x img_width img_height fb_width fb_height x)

/-- Read of `image_data[i]`, an `unsigned char`.  An index outside the buffer
(undefined in C) reads 0. -/
def read_byte (image_data : List Nat) (i : Int) : Nat :=
  if 0 ≤ i then image_data.getD i.toNat 0 % 256 else 0

/-- Store `fb_data[i] = v`.  An index outside the buffer (undefined in C)
stores nothing. -/
def write_cell (fb_data : List Nat) (i : Int) (v : Nat) : List Nat :=
  if 0 ≤ i then fb_data.set i.toNat v else fb_data

/-- Line 225: `(0xFF << 24) | (r << 16) | (g << 8) | b` as a `uint32_t`. -/
def pixel (r g b : Nat) : Nat :=
  ((0xFF <<< 24) ||| (r <<< 16) ||| (g <<< 8) ||| b) % 2 ^ 32

/-- The cell value composed at lines 216-225 for scaled position `(x, y)`. -/
def sampled_pixel (image_data : List Nat) (img_width img_height fb_width fb_height x y : Int) :
    Nat :=
  let i := src_idx img_width img_height fb_width fb_height x y
  pixel (read_byte image_data i) (read_byte image_data (to_int32 (i + 1)))
    (read_byte image_data (to_int32 (i + 2)))

/-- The value the blit gives the cell with index `j`, read back through the
position `(j % fb_width - offset_x, j / fb_width - offset_y)` of the scaled
rectangle. -/
def cell_value (image_data : List Nat) (img_width img_height fb_width fb_height : Int)
    (j : Nat) : Nat :=
  sampled_pixel image_data img_width img_height fb_width fb_height
    ((j : Int) % fb_width - offset_x img_width img_height fb_width fb_height)
    ((j : Int) / fb_width - offset_y img_width img_height fb_width fb_height)

/-- Lines 207-227: the body of the inner loop at scaled position `(x, y)`. -/
def blit_pixel (image_data : List Nat) (img_width img_height fb_width fb_height : Int)
    (fb_data : List Nat) (x y : Int) : List Nat :=
  let i := src_idx img_width img_height fb_width fb_height x y
  let r := read_byte image_data i
  let g := read_byte image_data (to_int32 (i + 1))
  let b := read_byte image_data (to_int32 (i + 2))
  if dst_guard img_width img_height fb_width fb_height x y then
    write_cell fb_data (dst_idx img_width img_height fb_width fb_height x y) (pixel r g b)
  else fb_data

/-- Lines 206-228: the inner loop, `x` from 0 while `x < scaled_width`. -/
def blit_row (image_data : List Nat) (img_width img_height fb_width fb_height : Int)
    (fb_data : List Nat) (y : Int) : List Nat :=
  (List.range (scaled_width img_width img_height fb_width fb_height).toNat).foldl
    (fun fb (x : Nat) => blit_pixel image_data img_width img_height fb_width fb_height fb (x : Int) y)
    fb_data

/-- Lines 188-230: `scale_and_center_image`; the result is the content of
`fb_data` after the call. -/
def scale_and_center_image (image_data : List Nat) (img_width img_height : Int)
    (fb_data : List Nat) (fb_width fb_height : Int) : List Nat :=
  (List.range (scaled_height img_width img_height fb_width fb_height).toNat).foldl
    (fun fb (y : Nat) => blit_row image_data img_width img_height fb_width fb_height fb (y : Int))
    fb_data

/-- Hypotheses on the placed rectangle under which the loops stay inside the
destination and the cell index stays inside the range of `int`. -/
structure Placed (iw ih fw fh : Int) : Prop where
  fw_pos : 0 < fw
  ox_nonneg : 0 ≤ offset_x iw ih fw fh
  ox_fit : offset_x iw ih fw fh + scaled_width iw ih fw fh ≤ fw
  oy_nonneg : 0 ≤ offset_y iw ih fw fh
  oy_fit : offset_y iw ih fw fh + scaled_height iw ih fw fh ≤ fh
  cells_fit : fw * fh < 2 ^ 31


/-! ## libdrm objects, the device state and the outside world -/

/-- The fields of libdrm's `drmModeModeInfo` that the program reads
(`hdisplay`, `vdisplay`: `uint16_t`; `vrefresh`: `uint32_t`). -/
structure drmModeModeInfo where
  hdisplay : Nat
  vdisplay : Nat
  vrefresh : Nat
deriving DecidableEq

/-- The value `DRM_MODE_CONNECTED` of libdrm's `drmModeConnection`. -/
def DRM_MODE_CONNECTED : Nat := 1

/-- The fields of libdrm's `drmModeConnector` that the program reads;
`count_modes` is the length of `modes`. -/
structure drmModeConnector where
  connector_id : Nat
  encoder_id : Nat
  connection : Nat
  modes : List drmModeModeInfo
deriving DecidableEq

/-- The fields of libdrm's `drmModeEncoder` that the program reads. -/
structure drmModeEncoder where
  encoder_id : Nat
  crtc_id : Nat
deriving DecidableEq

/-- The field of libdrm's `drmModeCrtc` that identifies it. -/
structure drmModeCrtc where
  crtc_id : Nat
deriving DecidableEq

/-- The part of libdrm's `drmModeRes` that the program walks: for each listed
connector and encoder id, the object `drmModeGetConnector` /
`drmModeGetEncoder` returns for it. -/
structure drmModeRes where
  connectors : List drmModeConnector
  encoders : List drmModeEncoder
deriving DecidableEq

/-- A resource the program can hold.  `connector i` and `listed_encoder i` are
the objects returned in iteration `i` of the loops at lines 69 and 104. -/
inductive Res where
  | device
  | resources
  | connector (i : Nat)
  | connector_encoder
  | listed_encoder (i : Nat)
  | crtc
  | dumb_buffer
  | framebuffer
  | mapping
  | image
deriving DecidableEq

/-- One call into the outside world, as far as resources are concerned:
`acquire r` is a call that returned `r`, `fail r` a call that tried to obtain
`r` and failed, `release r` the call that gives `r` back
(`munmap`, `drmModeRmFB`, `DRM_IOCTL_MODE_DESTROY_DUMB`, `drmModeFree*`,
`stbi_image_free`, `close`). -/
inductive Event where
  | acquire (r : Res)
  | fail (r : Res)
  | release (r : Res)
  | set_crtc (ok : Bool)
  | getchar
deriving DecidableEq

/-- A non-null pointer: the allocation it names and the object stored there. -/
structure Ptr (α : Type) where
  res : Res
  obj : α
deriving DecidableEq

/-- Lines 24-36: `struct drm_device`.  A pointer field is `none` for `NULL`;
`map` is an address, 0 for `NULL`. -/
structure drm_device where
  fd : Int
  resources : Option (Ptr drmModeRes)
  connector : Option (Ptr drmModeConnector)
  encoder : Option (Ptr drmModeEncoder)
  crtc : Option (Ptr drmModeCrtc)
  mode : drmModeModeInfo
  fb_id : Nat
  map : Nat
  size : Nat
  handle : Nat
  pitch : Nat
deriving DecidableEq

/-- Line 296: `struct drm_device dev = {0}`. -/
def drm_device_zero : drm_device :=
  { fd := 0, resources := none, connector := none, encoder := none, crtc := none,
    mode := ⟨0, 0, 0⟩, fb_id := 0, map := 0, size := 0, handle := 0, pitch := 0 }

/-- The address `MAP_FAILED`, `(void *) -1`, on a 64-bit target. -/
def MAP_FAILED : Nat := 2 ^ 64 - 1

/-- What `stbi_load` returns on success: width, height and the RGB bytes. -/
structure Image where
  width : Int
  height : Int
  data : List Nat
deriving DecidableEq

/-- What `DRM_IOCTL_MODE_CREATE_DUMB` fills in on success. -/
structure DumbBuffer where
  handle : Nat
  pitch : Nat
  size : Nat
deriving DecidableEq

/-- The outcome of every call the program makes into the kernel, libdrm and
stb_image during one run. -/
structure World where
  /-- Result of `open`: the descriptor, negative on failure. -/
  open_result : Int
  /-- Result of `drmModeGetResources`. -/
  resources : Option drmModeRes
  /-- Result of `drmModeGetEncoder (fd, connector->encoder_id)` at line 100. -/
  connector_encoder : Option drmModeEncoder
  /-- Result of `drmModeGetCrtc (fd, encoder->crtc_id)` at line 127. -/
  crtc : Option drmModeCrtc
  /-- Result of `DRM_IOCTL_MODE_CREATE_DUMB`. -/
  create_dumb : Option DumbBuffer
  /-- Result of `drmModeAddFB`: the framebuffer id. -/
  add_fb : Option Nat
  /-- Result of `DRM_IOCTL_MODE_MAP_DUMB`: the mmap offset. -/
  map_dumb : Option Nat
  /-- Result of `mmap`: the address, or `MAP_FAILED`. -/
  mmap : Nat
  /-- Result of `stbi_load`. -/
  image : Option Image
  /-- Result of `drmModeSetCrtc`: its return value. -/
  set_crtc : Int

/-- What a function leaves behind: its return value, the device state and the
calls it made, in order. -/
structure Outcome where
  ret : Int
  dev : drm_device
  trace : List Event
deriving DecidableEq

/-! ## `find_drm_device` -/

/-- Lines 69-76: the connector loop from index `i` on.  The result is the value
of `connector` after the loop with the calls made. -/
def scan_connectors : List drmModeConnector → Nat → Option (Ptr drmModeConnector) × List Event
  | [], _ => (none, [])
  | c :: rest, i =>
    if c.connection = DRM_MODE_CONNECTED ∧ c.modes.length > 0 then
      (some ⟨Res.connector i, c⟩, [Event.acquire (Res.connector i)])
    else
      ((scan_connectors rest (i + 1)).1,
        Event.acquire (Res.connector i) :: Event.release (Res.connector i)
          :: (scan_connectors rest (i + 1)).2)

/-- Line 92: `current_mode->hdisplay * current_mode->vdisplay`, an `int`
product of the promoted `uint16_t` fields. -/
def mode_area (current_mode : drmModeModeInfo) : Int :=
  to_int32 ((current_mode.hdisplay : Int) * (current_mode.vdisplay : Int))

/-- Lines 91-95: one iteration of the mode loop on the pair `(dev->mode, area)`. -/
def select_mode_step (st : drmModeModeInfo × Int) (current_mode : drmModeModeInfo) :
    drmModeModeInfo × Int :=
  if mode_area current_mode > st.2 then (current_mode, mode_area current_mode) else st

/-- Lines 89-96: the value of `dev->mode` after the mode loop, started from
the value `mode` it had before. -/
def select_mode (mode : drmModeModeInfo) (modes : List drmModeModeInfo) : drmModeModeInfo :=
  (modes.foldl select_mode_step (mode, 0)).1

/-- Lines 104-111: the encoder loop from index `i` on. -/
def scan_encoders (encoder_id : Nat) :
    List drmModeEncoder → Nat → Option (Ptr drmModeEncoder) × List Event
  | [], _ => (none, [])
  | e :: rest, i =>
    if e.encoder_id = encoder_id then
      (some ⟨Res.listed_encoder i, e⟩, [Event.acquire (Res.listed_encoder i)])
    else
      ((scan_encoders encoder_id rest (i + 1)).1,
        Event.acquire (Res.listed_encoder i) :: Event.release (Res.listed_encoder i)
          :: (scan_encoders encoder_id rest (i + 1)).2)

/-- Lines 99-101: the lookup of the connector's current encoder. -/
def bound_encoder (w : World) (connector : drmModeConnector) :
    Option (Ptr drmModeEncoder) × List Event :=
  if connector.encoder_id ≠ 0 then
    match w.connector_encoder with
    | some e => (some ⟨Res.connector_encoder, e⟩, [Event.acquire Res.connector_encoder])
    | none => (none, [Event.fail Res.connector_encoder])
  else (none, [])

/-- Lines 99-112: the value of `encoder` before line 114. -/
def find_encoder (w : World) (resources : drmModeRes) (connector : drmModeConnector) :
    Option (Ptr drmModeEncoder) × List Event :=
  match bound_encoder w connector with
  | (some e, t) => (some e, t)
  | (none, t) =>
    ((scan_encoders connector.encoder_id resources.encoders 0).1,
      t ++ (scan_encoders connector.encoder_id resources.encoders 0).2)

/-- Lines 126-128: the lookup of the encoder's CRTC. -/
def find_crtc (w : World) (encoder : drmModeEncoder) : Option (Ptr drmModeCrtc) × List Event :=
  if encoder.crtc_id ≠ 0 then
    match w.crtc with
    | some c => (some ⟨Res.crtc, c⟩, [Event.acquire Res.crtc])
    | none => (none, [Event.fail Res.crtc])
  else (none, [])

/-- Lines 38-134: `find_drm_device`. -/
def find_drm_device (w : World) (dev : drm_device) : Outcome :=
  let dev := { dev with fd := w.open_result }
  if dev.fd < 0 then ⟨-1, dev, [Event.fail Res.device]⟩
  else
    match w.resources with
    | none =>
      ⟨-1, dev, [Event.acquire Res.device, Event.fail Res.resources, Event.release Res.device]⟩
    | some resources =>
      let dev := { dev with resources := some ⟨Res.resources, resources⟩ }
      let t1 := [Event.acquire Res.device, Event.acquire Res.resources]
        ++ (scan_connectors resources.connectors 0).2
      match (scan_connectors resources.connectors 0).1 with
      | none => ⟨-1, dev, t1 ++ [Event.release Res.resources, Event.release Res.device]⟩
      | some connector =>
        let dev := { dev with connector := some connector }
        let dev := { dev with mode := select_mode dev.mode connector.obj.modes }
        let t2 := t1 ++ (find_encoder w resources connector.obj).2
        match (find_encoder w resources connector.obj).1 with
        | none =>
          ⟨-1, dev, t2 ++ [Event.release connector.res, Event.release Res.resources,
            Event.release Res.device]⟩
        | some encoder =>
          let dev := { dev with encoder := some encoder }
          let dev := if encoder.obj.crtc_id ≠ 0 then
              { dev with crtc := (find_crtc w encoder.obj).1 }
            else dev
          ⟨0, dev, t2 ++ (find_crtc w encoder.obj).2⟩

/-! ## `create_framebuffer`, `display_image`, `cleanup_drm`, `main` -/

/-- Lines 136-186: `create_framebuffer`. -/
def create_framebuffer (w : World) (dev : drm_device) : Outcome :=
  match w.create_dumb with
  | none => ⟨-1, dev, [Event.fail Res.dumb_buffer]⟩
  | some create_req =>
    let dev := { dev with handle := create_req.handle, pitch := create_req.pitch,
                          size := create_req.size }
    match w.add_fb with
    | none => ⟨-1, dev, [Event.acquire Res.dumb_buffer, Event.fail Res.framebuffer]⟩
    | some fb_id =>
      let dev := { dev with fb_id := fb_id }
      match w.map_dumb with
      | none =>
        ⟨-1, dev, [Event.acquire Res.dumb_buffer, Event.acquire Res.framebuffer,
          Event.fail Res.mapping]⟩
      | some _ =>
        let dev := { dev with map := w.mmap }
        if dev.map = MAP_FAILED then
          ⟨-1, dev, [Event.acquire Res.dumb_buffer, Event.acquire Res.framebuffer,
            Event.fail Res.mapping]⟩
        else
          ⟨0, dev, [Event.acquire Res.dumb_buffer, Event.acquire Res.framebuffer,
            Event.acquire Res.mapping]⟩

/-- Lines 246-251: the content of the mapped buffer, as `uint32_t` cells, after
the `memset` and the blit: `fb_data` is `dev->map`, the width passed is
`dev->mode.hdisplay`, the height `dev->mode.vdisplay`. -/
def display_image_framebuffer (dev : drm_device) (img : Image) : List Nat :=
  scale_and_center_image img.data img.width img.height (List.replicate (dev.size / 4) 0)
    (dev.mode.hdisplay : Int) (dev.mode.vdisplay : Int)

/-- Lines 226, 249-251: the byte offset inside `dev->map` of the store made for
scaled position `(x, y)`; `fb_data` is a `uint32_t *`, so cell `i` is at
byte `4 * i`. -/
def display_image_store_offset (dev : drm_device) (img : Image) (x y : Int) : Int :=
  4 * dst_idx img.width img.height (dev.mode.hdisplay : Int) (dev.mode.vdisplay : Int) x y

/-- Lines 232-264: `display_image`, its calls; the buffer content it leaves is
`display_image_framebuffer`. -/
def display_image (w : World) (dev : drm_device) : Outcome :=
  match w.image with
  | none => ⟨-1, dev, [Event.fail Res.image]⟩
  | some _ =>
    if w.set_crtc ≠ 0 then
      ⟨-1, dev, [Event.acquire Res.image, Event.release Res.image, Event.set_crtc false]⟩
    else
      ⟨0, dev, [Event.acquire Res.image, Event.release Res.image, Event.set_crtc true]⟩

/-- Lines 266-293: the calls of `cleanup_drm`, in order. -/
def cleanup_drm_calls (dev : drm_device) : List Event :=
  (if dev.map ≠ 0 ∧ dev.map ≠ MAP_FAILED then [Event.release Res.mapping] else [])
  ++ (if dev.fb_id ≠ 0 then [Event.release Res.framebuffer] else [])
  ++ (if dev.handle ≠ 0 then [Event.release Res.dumb_buffer] else [])
  ++ (match dev.crtc with
      | some p => [Event.release p.res]
      | none => [])
  ++ (match dev.encoder with
      | some p => [Event.release p.res]
      | none => [])
  ++ (match dev.connector with
      | some p => [Event.release p.res]
      | none => [])
  ++ (match dev.resources with
      | some p => [Event.release p.res]
      | none => [])
  ++ (if dev.fd ≥ 0 then [Event.release Res.device] else [])

/-- Lines 266-293: `cleanup_drm`.  It assigns to no field of `*dev`, so the
state it leaves is the state it was given. -/
def cleanup_drm (dev : drm_device) : drm_device × List Event :=
  (dev, cleanup_drm_calls dev)

/-- Lines 295-329: `main`: the exit code and the calls made. -/
def main (w : World) (argc : Int) : Int × List Event :=
  if argc ≠ 2 then (1, [])
  else
    let r1 := find_drm_device w drm_device_zero
    if r1.ret ≠ 0 then (1, r1.trace)
    else
      let r2 := create_framebuffer w r1.dev
      if r2.ret ≠ 0 then (1, r1.trace ++ r2.trace ++ (cleanup_drm r2.dev).2)
      else
        let r3 := display_image w r2.dev
        if r3.ret ≠ 0 then
          (1, r1.trace ++ r2.trace ++ r3.trace ++ (cleanup_drm r3.dev).2)
        else
          (0, r1.trace ++ r2.trace ++ r3.trace ++ [Event.getchar] ++ (cleanup_drm r3.dev).2)

/-! ## Bookkeeping of held resources -/

/-- The test of line 71 on a connector. -/
def usable (c : drmModeConnector) : Bool :=
  decide (c.connection = DRM_MODE_CONNECTED) && decide (c.modes.length > 0)

/-! ## The specification side of teardown and of a run -/

/-- The eight places of `struct drm_device` that can hold a resource. -/
inductive Slot where
  | mapping
  | framebuffer
  | buffer_handle
  | controller
  | encoder
  | connector
  | resource_list
  | device
deriving DecidableEq

/-- The fixed reverse-acquisition order of the specification: mapping,
framebuffer registration, buffer handle, controller, encoder, output, resource
list, device handle. -/
def reverse_acquisition_order : List Slot :=
  [Slot.mapping, Slot.framebuffer, Slot.buffer_handle, Slot.controller, Slot.encoder,
   Slot.connector, Slot.resource_list, Slot.device]

/-- The resource a slot of the device state holds, if it holds one: a non-null
pointer, a non-zero id or handle, a mapping that is neither null nor
`MAP_FAILED`, a descriptor that is not negative. -/
def slot_resource (dev : drm_device) : Slot → Option Res
  | Slot.mapping => if dev.map ≠ 0 ∧ dev.map ≠ MAP_FAILED then some Res.mapping else none
  | Slot.framebuffer => if dev.fb_id ≠ 0 then some Res.framebuffer else none
  | Slot.buffer_handle => if dev.handle ≠ 0 then some Res.dumb_buffer else none
  | Slot.controller => dev.crtc.map Ptr.res
  | Slot.encoder => dev.encoder.map Ptr.res
  | Slot.connector => dev.connector.map Ptr.res
  | Slot.resource_list => dev.resources.map Ptr.res
  | Slot.device => if dev.fd ≥ 0 then some Res.device else none

/-- The resources a device state holds, in reverse-acquisition order. -/
def held_resources (dev : drm_device) : List Res :=
  reverse_acquisition_order.filterMap (slot_resource dev)

/-- A world in which every call succeeds: the first connector is unplugged,
the second is connected and advertises four modes, two of them 1920x1080. -/
def world_ok : World :=
  { open_result := 3,
    resources := some
      { connectors :=
          [⟨31, 0, 2, []⟩,
           ⟨32, 7, DRM_MODE_CONNECTED,
             [⟨1024, 768, 60⟩, ⟨1920, 1080, 60⟩, ⟨1920, 1080, 50⟩, ⟨800, 600, 60⟩]⟩],
        encoders := [⟨6, 0⟩, ⟨7, 5⟩] },
    connector_encoder := some ⟨7, 5⟩,
    crtc := some ⟨5⟩,
    create_dumb := some ⟨1, 7680, 8294400⟩,
    add_fb := some 42,
    map_dumb := some 65536,
    mmap := 139637976727552,
    image := some ⟨2, 1, [255, 0, 0, 0, 0, 255]⟩,
    set_crtc := 0 }

/-- A world whose two connectors are both unplugged. -/
def world_no_output : World :=
  { world_ok with
    resources := some { connectors := [⟨31, 0, 2, []⟩, ⟨32, 0, 2, []⟩], encoders := [⟨6, 0⟩] } }

/-- A world whose connected connector advertises the single mode 1920x0. -/
def world_zero_area : World :=
  { world_ok with
    resources := some
      { connectors := [⟨32, 7, DRM_MODE_CONNECTED, [⟨1920, 0, 60⟩]⟩], encoders := [⟨7, 5⟩] } }

/-- The device state after `find_drm_device` opened descriptor 3 and nothing
else was stored. -/
def dev_only_open : drm_device := { drm_device_zero with fd := 3 }

/-- A device state for a 1366x768 mode whose dumb buffer has rows of 5504
bytes: 1366 * 4 = 5464 rounded up to a multiple of 64. -/
def dev_1366 : drm_device :=
  { drm_device_zero with
    fd := 3, mode := ⟨1366, 768, 60⟩, fb_id := 42, map := 139637976727552,
    size := 4227072, handle := 1, pitch := 5504 }

/-! ## Properties of the binary32 operations -/

namespace F32

theorem log2Fuel_spec : ∀ (fuel n : Nat), n ≤ fuel → 0 < n →
    2 ^ log2Fuel fuel n ≤ n ∧ n < 2 ^ (log2Fuel fuel n + 1) := by
  intro fuel
  induction fuel with
  | zero => intro n h1 h2; omega
  | succ fuel ih =>
    intro n h1 h2
    unfold log2Fuel
    by_cases hn : n < 2
    · simp only [hn, if_true]
      constructor <;> simp <;> omega
    · simp only [hn, if_false]
      have h3 := ih (n / 2) (by omega) (by omega)
      obtain ⟨h4, h5⟩ := h3
      have e1 : 2 ^ (log2Fuel fuel (n / 2) + 1) = 2 * 2 ^ log2Fuel fuel (n / 2) := by ring
      have e2 : 2 ^ (log2Fuel fuel (n / 2) + 1 + 1) = 4 * 2 ^ log2Fuel fuel (n / 2) := by ring
      rw [e1] at h5
      rw [e1, e2]
      generalize 2 ^ log2Fuel fuel (n / 2) = p at h4 h5 ⊢
      omega

theorem log2_spec (n : Nat) (h : 0 < n) : 2 ^ log2 n ≤ n ∧ n < 2 ^ (log2 n + 1) :=
  log2Fuel_spec n n (le_refl n) h

theorem ilog2_le (a b : Nat) (ha : 0 < a) (hb : 0 < b) :
    (2 : ℚ) ^ ilog2 a b ≤ (a : ℚ) / b := by
  have hb0 : (0 : ℚ) < b := by exact_mod_cast hb
  obtain ⟨ha1, ha2⟩ := log2_spec a ha
  obtain ⟨hb1, hb2⟩ := log2_spec b hb
  have ha1q : (2 : ℚ) ^ log2 a ≤ a := by exact_mod_cast ha1
  have hb2q : (b : ℚ) < 2 ^ (log2 b + 1) := by exact_mod_cast hb2
  have hpa : (0 : ℚ) < 2 ^ log2 a := by positivity
  have hpb : (0 : ℚ) < 2 ^ log2 b := by positivity
  unfold ilog2
  simp only
  split_ifs with h
  · rw [le_div_iff₀ hb0]
    have e1 : (2 : ℚ) ^ ((log2 a : Int) - (log2 b : Int) - 1) = 2 ^ log2 a / (2 ^ (log2 b + 1)) := by
      rw [show ((log2 a : Int) - (log2 b : Int) - 1) = (log2 a : Int) - ((log2 b + 1 : Nat) : Int) by push_cast; ring]
      rw [zpow_sub₀ (by norm_num), zpow_natCast, zpow_natCast]
    rw [e1, div_mul_eq_mul_div, div_le_iff₀ (by positivity)]
    nlinarith
  · rw [le_div_iff₀ hb0]
    have e1 : (2 : ℚ) ^ ((log2 a : Int) - (log2 b : Int)) = 2 ^ log2 a / (2 ^ log2 b) := by
      rw [zpow_sub₀ (by norm_num), zpow_natCast, zpow_natCast]
    rw [e1, div_mul_eq_mul_div, div_le_iff₀ hpb]
    have h2 : b * 2 ^ log2 a ≤ a * 2 ^ log2 b := Nat.le_of_not_lt h
    have h3 : (b : ℚ) * 2 ^ log2 a ≤ a * 2 ^ log2 b := by exact_mod_cast h2
    linarith

theorem rne_err (num den : Nat) (hden : 0 < den) :
    |((rne num den : Nat) : ℚ) - (num : ℚ) / den| ≤ 1 / 2 := by
  have hd : (0 : ℚ) < den := by exact_mod_cast hden
  have hdiv : (num : ℚ) / den = (num / den : Nat) + ((num % den : Nat) : ℚ) / den := by
    have := Nat.div_add_mod num den
    have h2 : (num : ℚ) = (den : ℚ) * (num / den : Nat) + (num % den : Nat) := by exact_mod_cast this.symm
    field_simp
    linarith
  have hr : num % den < den := Nat.mod_lt _ hden
  have hrq : ((num % den : Nat) : ℚ) < den := by exact_mod_cast hr
  have hr0 : (0 : ℚ) ≤ ((num % den : Nat) : ℚ) := by positivity
  rw [hdiv]
  generalize hq : num / den = q
  generalize hrr : num % den = r at hr hrq hr0
  have key : (rne num den = q ∧ 2 * r ≤ den) ∨ (rne num den = q + 1 ∧ den ≤ 2 * r) := by
    unfold rne
    simp only [hq, hrr]
    split_ifs <;> first | (left; constructor <;> [rfl; omega]) | (right; constructor <;> [rfl; omega])
  rcases key with ⟨h1, h2⟩ | ⟨h1, h2⟩
  · rw [h1]
    have h2q : (2 : ℚ) * r ≤ den := by exact_mod_cast h2
    rw [abs_le]
    constructor
    · have : (r : ℚ) / den ≤ 1 / 2 := by rw [div_le_div_iff₀ hd (by norm_num)]; linarith
      linarith
    · have : (0 : ℚ) ≤ (r : ℚ) / den := by positivity
      linarith
  · rw [h1]
    have h2q : (den : ℚ) ≤ 2 * r := by exact_mod_cast h2
    rw [abs_le]
    push_cast
    constructor
    · have : (r : ℚ) / den < 1 := by rw [div_lt_one hd]; exact hrq
      linarith
    · have : (1 : ℚ) / 2 ≤ (r : ℚ) / den := by rw [div_le_div_iff₀ (by norm_num) hd]; linarith
      linarith


theorem two_zpow_of_nonneg (z : Int) (h : 0 ≤ z) : (2 : ℚ) ^ z = (2 : ℚ) ^ z.toNat := by
  conv_lhs => rw [← Int.toNat_of_nonneg h]
  exact zpow_natCast 2 _

theorem two_zpow_of_nonpos (z : Int) (h : z ≤ 0) : (2 : ℚ) ^ z = ((2 : ℚ) ^ (-z).toNat)⁻¹ := by
  have h2 : 0 ≤ -z := by omega
  rw [← two_zpow_of_nonneg (-z) h2, zpow_neg, inv_inv]

theorem roundPos_mant (a b : Nat) (k : Int) (hb : 0 < b) :
    |((roundPos a b k).m : ℚ) - (a : ℚ) / b * (2 : ℚ) ^ (k - (roundPos a b k).e)| ≤ 1 / 2 := by
  have hb0 : (0 : ℚ) < b := by exact_mod_cast hb
  unfold roundPos
  simp only
  generalize max (ilog2 a b + k) (-126) - 23 = s
  split_ifs with ht
  · have h := rne_err (a * 2 ^ (k - s).toNat) b hb
    rw [two_zpow_of_nonneg _ ht]
    push_cast at h ⊢
    rw [div_mul_eq_mul_div]
    exact h
  · have hpos : 0 < b * 2 ^ (-(k - s)).toNat := by positivity
    have h := rne_err a (b * 2 ^ (-(k - s)).toNat) hpos
    rw [two_zpow_of_nonpos _ (by omega)]
    push_cast at h ⊢
    have e2 : (a : ℚ) / b * ((2 : ℚ) ^ (-(k - s)).toNat)⁻¹ = a / (b * 2 ^ (-(k - s)).toNat) := by
      field_simp
    rw [e2]
    exact h

theorem roundPos_e (a b : Nat) (k : Int) :
    (roundPos a b k).e = max (ilog2 a b + k) (-126) - 23 := rfl

theorem roundPos_m_nonneg (a b : Nat) (k : Int) : 0 ≤ (roundPos a b k).m := by
  unfold roundPos
  simp only
  split_ifs <;> exact Int.ofNat_nonneg _

/-- Error of one rounding: half a unit in the last place, at most the
relative error `2^-24` or, in the subnormal range, the absolute error `2^-150`. -/
theorem roundPos_err (a b : Nat) (k : Int) (ha : 0 < a) (hb : 0 < b) :
    |toRat (roundPos a b k) - (a : ℚ) / b * (2 : ℚ) ^ k|
      ≤ (a : ℚ) / b * (2 : ℚ) ^ k * (2 : ℚ) ^ (-24 : Int) + (2 : ℚ) ^ (-150 : Int) := by
  have hb0 : (0 : ℚ) < b := by exact_mod_cast hb
  have ha0 : (0 : ℚ) < a := by exact_mod_cast ha
  have hm := roundPos_mant a b k hb
  have he := roundPos_e a b k
  have hlog := ilog2_le a b ha hb
  unfold toRat
  generalize (roundPos a b k).m = m at hm
  generalize (roundPos a b k).e = s at hm he
  have hs : (0 : ℚ) < (2 : ℚ) ^ s := by positivity
  have hk : (2 : ℚ) ^ k = (2 : ℚ) ^ (k - s) * (2 : ℚ) ^ s := by
    rw [← zpow_add₀ (by norm_num : (2 : ℚ) ≠ 0)]
    congr 1
    ring
  have e1 : (m : ℚ) * (2 : ℚ) ^ s - (a : ℚ) / b * (2 : ℚ) ^ k
      = ((m : ℚ) - (a : ℚ) / b * (2 : ℚ) ^ (k - s)) * (2 : ℚ) ^ s := by
    rw [hk]; ring
  rw [e1, abs_mul, abs_of_pos hs]
  have h1 : |(m : ℚ) - (a : ℚ) / b * (2 : ℚ) ^ (k - s)| * (2 : ℚ) ^ s ≤ 1 / 2 * (2 : ℚ) ^ s :=
    mul_le_mul_of_nonneg_right hm hs.le
  have h2 : (1 : ℚ) / 2 * (2 : ℚ) ^ s = (2 : ℚ) ^ (s - 1) := by
    rw [zpow_sub₀ (by norm_num : (2 : ℚ) ≠ 0)]; simp; ring
  have hv : (0 : ℚ) ≤ (a : ℚ) / b * (2 : ℚ) ^ k * (2 : ℚ) ^ (-24 : Int) := by positivity
  have h150 : (0 : ℚ) ≤ (2 : ℚ) ^ (-150 : Int) := by positivity
  have h3 : (2 : ℚ) ^ (s - 1) ≤ (a : ℚ) / b * (2 : ℚ) ^ k * (2 : ℚ) ^ (-24 : Int) + (2 : ℚ) ^ (-150 : Int) := by
    rcases le_total (ilog2 a b + k) (-126) with hc | hc
    · have : s = -126 - 23 := by rw [he, max_eq_right hc]
      rw [this]
      norm_num
      linarith
    · have : s = ilog2 a b + k - 23 := by rw [he, max_eq_left hc]
      rw [this]
      have e3 : (2 : ℚ) ^ (ilog2 a b + k - 23 - 1) = (2 : ℚ) ^ ilog2 a b * (2 : ℚ) ^ k * (2 : ℚ) ^ (-24 : Int) := by
        rw [← zpow_add₀ (by norm_num : (2 : ℚ) ≠ 0), ← zpow_add₀ (by norm_num : (2 : ℚ) ≠ 0)]
        congr 1
        ring
      rw [e3]
      have hk0 : (0 : ℚ) < (2 : ℚ) ^ k := by positivity
      have h24 : (0 : ℚ) < (2 : ℚ) ^ (-24 : Int) := by positivity
      have := mul_le_mul_of_nonneg_right (mul_le_mul_of_nonneg_right hlog hk0.le) h24.le
      linarith
  linarith


theorem round_m_nonneg (num den k : Int) (hn : 0 ≤ num) (hd : 0 ≤ den) :
    0 ≤ (round num den k).m := by
  unfold round
  split_ifs with h1 h2
  · exact le_refl _
  · exact roundPos_m_nonneg _ _ _
  · exfalso
    apply h2
    simp [not_lt.mpr hn, not_lt.mpr hd]

theorem round_err (num den k : Int) (hn : 0 ≤ num) (hd : 0 < den) :
    |toRat (round num den k) - (num : ℚ) / den * (2 : ℚ) ^ k|
      ≤ (num : ℚ) / den * (2 : ℚ) ^ k * (2 : ℚ) ^ (-24 : Int) + (2 : ℚ) ^ (-150 : Int) := by
  unfold round
  split_ifs with h1 h2
  · rcases h1 with h1 | h1
    · subst h1
      simp [toRat]
      positivity
    · omega
  · have hn1 : 0 < num.natAbs := by
      rcases Int.natAbs_pos.mpr (fun h => h1 (Or.inl h)) with h
      exact h
    have hd1 : 0 < den.natAbs := Int.natAbs_pos.mpr (by omega)
    have h := roundPos_err num.natAbs den.natAbs k hn1 hd1
    have e1 : ((num.natAbs : Nat) : ℚ) = (num : ℚ) := by
      rw [← Int.cast_natCast, Int.natAbs_of_nonneg hn]
    have e2 : ((den.natAbs : Nat) : ℚ) = (den : ℚ) := by
      rw [← Int.cast_natCast, Int.natAbs_of_nonneg hd.le]
    rw [e1, e2] at h
    exact h
  · exfalso
    apply h2
    simp [not_lt.mpr hn, not_lt.mpr hd.le]

theorem toRat_nonneg (x : F32) (h : 0 ≤ x.m) : 0 ≤ toRat x := by
  unfold toRat
  have : (0 : ℚ) ≤ x.m := by exact_mod_cast h
  positivity

theorem toRat_pos (x : F32) (h : 0 < x.m) : 0 < toRat x := by
  unfold toRat
  have : (0 : ℚ) < x.m := by exact_mod_cast h
  positivity

theorem m_pos_of_toRat_pos (x : F32) (h : 0 < toRat x) : 0 < x.m := by
  unfold toRat at h
  have h2 : (0 : ℚ) < (2 : ℚ) ^ x.e := by positivity
  have h3 : (0 : ℚ) < x.m := by
    by_contra hc
    push_neg at hc
    have := mul_nonpos_of_nonpos_of_nonneg hc h2.le
    linarith
  exact_mod_cast h3

theorem ofInt_m_nonneg (n : Int) (hn : 0 ≤ n) : 0 ≤ (ofInt n).m :=
  round_m_nonneg n 1 0 hn (by norm_num)

theorem div_m_nonneg (x y : F32) (hx : 0 ≤ x.m) (hy : 0 ≤ y.m) : 0 ≤ (div x y).m :=
  round_m_nonneg _ _ _ hx hy

theorem mul_m_nonneg (x y : F32) (hx : 0 ≤ x.m) (hy : 0 ≤ y.m) : 0 ≤ (mul x y).m :=
  round_m_nonneg _ _ _ (mul_nonneg hx hy) (by norm_num)

theorem ofInt_err (n : Int) (hn : 0 ≤ n) :
    |toRat (ofInt n) - (n : ℚ)| ≤ (n : ℚ) * (2 : ℚ) ^ (-24 : Int) + (2 : ℚ) ^ (-150 : Int) := by
  have h := round_err n 1 0 hn (by norm_num)
  simpa [ofInt] using h

theorem div_err (x y : F32) (hx : 0 ≤ x.m) (hy : 0 < y.m) :
    |toRat (div x y) - toRat x / toRat y|
      ≤ toRat x / toRat y * (2 : ℚ) ^ (-24 : Int) + (2 : ℚ) ^ (-150 : Int) := by
  have h := round_err x.m y.m (x.e - y.e) hx hy
  have hy0 : (y.m : ℚ) ≠ 0 := by
    have : (0 : ℚ) < y.m := by exact_mod_cast hy
    exact ne_of_gt this
  have e : toRat x / toRat y = (x.m : ℚ) / y.m * (2 : ℚ) ^ (x.e - y.e) := by
    unfold toRat
    rw [zpow_sub₀ (by norm_num : (2 : ℚ) ≠ 0)]
    field_simp
  rw [e]
  exact h

theorem mul_err (x y : F32) (hx : 0 ≤ x.m) (hy : 0 ≤ y.m) :
    |toRat (mul x y) - toRat x * toRat y|
      ≤ toRat x * toRat y * (2 : ℚ) ^ (-24 : Int) + (2 : ℚ) ^ (-150 : Int) := by
  have h := round_err (x.m * y.m) 1 (x.e + y.e) (mul_nonneg hx hy) (by norm_num)
  have e : toRat x * toRat y = ((x.m * y.m : Int) : ℚ) / ((1 : Int) : ℚ) * (2 : ℚ) ^ (x.e + y.e) := by
    unfold toRat
    rw [zpow_add₀ (by norm_num : (2 : ℚ) ≠ 0)]
    push_cast
    ring
  rw [e]
  exact h

theorem lt_iff (x y : F32) : lt x y = true ↔ toRat x < toRat y := by
  unfold lt toRat
  simp only [decide_eq_true_eq]
  have hx : 0 ≤ x.e - min x.e y.e := by have := min_le_left x.e y.e; omega
  have hy : 0 ≤ y.e - min x.e y.e := by have := min_le_right x.e y.e; omega
  generalize min x.e y.e = e at hx hy
  have ex : (2 : ℚ) ^ x.e = (2 : ℚ) ^ (x.e - e).toNat * (2 : ℚ) ^ e := by
    rw [← two_zpow_of_nonneg _ hx, ← zpow_add₀ (by norm_num : (2 : ℚ) ≠ 0)]
    congr 1; ring
  have ey : (2 : ℚ) ^ y.e = (2 : ℚ) ^ (y.e - e).toNat * (2 : ℚ) ^ e := by
    rw [← two_zpow_of_nonneg _ hy, ← zpow_add₀ (by norm_num : (2 : ℚ) ≠ 0)]
    congr 1; ring
  have he : (0 : ℚ) < (2 : ℚ) ^ e := by positivity
  rw [ex, ey, ← mul_assoc, ← mul_assoc, mul_lt_mul_right he]
  constructor
  · intro h
    exact_mod_cast h
  · intro h
    exact_mod_cast h

theorem toInt_nonneg (x : F32) (h : 0 ≤ x.m) : 0 ≤ toInt x := by
  unfold toInt
  split_ifs
  · positivity
  · apply Int.tdiv_nonneg h
    positivity

theorem toInt_le (x : F32) (h : 0 ≤ x.m) : ((toInt x : Int) : ℚ) ≤ toRat x := by
  unfold toInt toRat
  split_ifs with he
  · rw [two_zpow_of_nonneg _ he]
    push_cast
    exact le_refl _
  · have hpos : (0 : Int) < 2 ^ (-x.e).toNat := by positivity
    rw [Int.tdiv_eq_ediv h hpos.le, two_zpow_of_nonpos _ (by omega)]
    have h1 := Int.ediv_mul_le x.m (ne_of_gt hpos)
    have h2 : ((x.m / 2 ^ (-x.e).toNat : Int) : ℚ) * ((2 : ℚ) ^ (-x.e).toNat) ≤ x.m := by
      exact_mod_cast h1
    have hq : (0 : ℚ) < (2 : ℚ) ^ (-x.e).toNat := by positivity
    rw [← div_eq_mul_inv, le_div_iff₀ hq]
    exact h2

theorem toInt_le_of_lt (x : F32) (h : 0 ≤ x.m) (n : Int) (hn : toRat x < (n : ℚ) + 1) :
    toInt x ≤ n := by
  have h1 := toInt_le x h
  have h2 : ((toInt x : Int) : ℚ) < ((n + 1 : Int) : ℚ) := by
    push_cast
    linarith
  have h3 : toInt x < n + 1 := by exact_mod_cast h2
  omega

theorem log2_one : log2 1 = 0 := rfl

theorem rne_one (x : Nat) : rne x 1 = x := by
  unfold rne
  simp only [Nat.div_one, Nat.mod_one]
  simp

/-- Every `int` of magnitude below `2^24` converts to `float` exactly. -/
theorem ofInt_exact (n : Int) (h0 : 0 ≤ n) (h1 : n < 2 ^ 24) : toRat (ofInt n) = (n : ℚ) := by
  unfold ofInt round
  split_ifs with hz h2
  · rcases hz with hz | hz
    · subst hz; simp [toRat]
    · omega
  · have hn1 : 0 < n.natAbs := Int.natAbs_pos.mpr (fun h => hz (Or.inl h))
    have hcast : ((n.natAbs : Nat) : Int) = n := Int.natAbs_of_nonneg h0
    have hlt : n.natAbs < 2 ^ 24 := by omega
    generalize n.natAbs = a at hn1 hcast hlt
    obtain ⟨hl1, hl2⟩ := log2_spec a hn1
    have hla : log2 a ≤ 23 := by
      by_contra hc
      push_neg at hc
      have : 2 ^ 24 ≤ 2 ^ log2 a := Nat.pow_le_pow_right (by norm_num) hc
      omega
    have hil : ilog2 a 1 = (log2 a : Int) := by
      unfold ilog2
      simp only [log2_one, pow_zero, mul_one, one_mul, not_lt.mpr hl1, if_false]
      simp
    have hr : roundPos a (Int.natAbs 1) 0 = ⟨(a * 2 ^ (23 - log2 a) : Nat), (log2 a : Int) - 23⟩ := by
      unfold roundPos
      simp only [Int.natAbs_one, hil, add_zero, rne_one]
      have hmax : max (log2 a : Int) (-126) = (log2 a : Int) := by
        apply max_eq_left; omega
      rw [hmax]
      have ht : (0 : Int) ≤ 0 - ((log2 a : Int) - 23) := by omega
      have ht2 : (0 - ((log2 a : Int) - 23)).toNat = 23 - log2 a := by omega
      simp only [ht, if_true, ht2]
    rw [hr]
    unfold toRat
    simp only
    rw [show ((log2 a : Int) - 23) = -((23 - log2 a : Nat) : Int) by omega]
    rw [zpow_neg, zpow_natCast]
    push_cast
    have hp : ((2 : ℚ) ^ (23 - log2 a)) ≠ 0 := by positivity
    rw [mul_assoc, mul_inv_cancel₀ hp, mul_one]
    rw [← Int.cast_natCast, hcast]
  · exfalso
    apply h2
    simp [not_lt.mpr h0]

end F32

/-! ## Geometry of the scaled rectangle -/

theorem ofInt_pos_bounds (s : Int) (hs : 0 < s) (hs2 : s < 2 ^ 31) :
    0 < (F32.ofInt s).m ∧ (1 : ℚ) / 2 ≤ F32.toRat (F32.ofInt s) ∧
      F32.toRat (F32.ofInt s) ≤ 2 ^ 32 := by
  have h := F32.ofInt_err s hs.le
  rw [abs_le] at h
  obtain ⟨h1, h2⟩ := h
  have hs1 : (1 : ℚ) ≤ s := by exact_mod_cast hs
  have hs3 : (s : ℚ) < 2 ^ 31 := by exact_mod_cast hs2
  norm_num at h1 h2 hs3
  have hlo : (1 : ℚ) / 2 ≤ F32.toRat (F32.ofInt s) := by linarith
  refine ⟨F32.m_pos_of_toRat_pos _ (by linarith), hlo, ?_⟩
  norm_num
  linarith

/-- The product `(int)(s * sc)` does not exceed `d` when `sc` is at most the
rounded ratio `d / s` and `d < 2^23`. -/
theorem mul_scale_le (s d : Int) (sc : F32) (hs : 0 < s) (hs2 : s < 2 ^ 31)
    (hd0 : 0 ≤ d) (hd : d < 2 ^ 23) (hsc0 : 0 ≤ sc.m)
    (hsc : F32.toRat sc ≤ F32.toRat (F32.div (F32.ofInt d) (F32.ofInt s))) :
    F32.toInt (F32.mul (F32.ofInt s) sc) ≤ d := by
  obtain ⟨hSm, hSlo, hShi⟩ := ofInt_pos_bounds s hs hs2
  have hDm := F32.ofInt_m_nonneg d hd0
  have hD : F32.toRat (F32.ofInt d) = d :=
    F32.ofInt_exact d hd0 (lt_trans hd (by norm_num))
  have hq := F32.div_err (F32.ofInt d) (F32.ofInt s) hDm hSm
  have hp := F32.mul_err (F32.ofInt s) sc hSm.le hsc0
  have hPm := F32.mul_m_nonneg (F32.ofInt s) sc hSm.le hsc0
  apply F32.toInt_le_of_lt _ hPm
  rw [hD] at hq
  generalize F32.toRat (F32.div (F32.ofInt d) (F32.ofInt s)) = Q at hq hsc
  generalize F32.toRat (F32.mul (F32.ofInt s) sc) = P at hp ⊢
  have hc0 := F32.toRat_nonneg sc hsc0
  generalize F32.toRat sc = c at hp hsc hc0
  generalize F32.toRat (F32.ofInt s) = S at hp hq hSlo hShi
  have hS0 : (0 : ℚ) < S := by linarith
  have hdq : (d : ℚ) ≤ 2 ^ 23 - 1 := by
    have : d ≤ 2 ^ 23 - 1 := by omega
    exact_mod_cast this
  have hd0q : (0 : ℚ) ≤ d := by exact_mod_cast hd0
  rw [abs_le] at hq hp
  obtain ⟨-, hq2⟩ := hq
  obtain ⟨-, hp2⟩ := hp
  have h1 : S * c ≤ S * Q := mul_le_mul_of_nonneg_left hsc hS0.le
  have h2 : S * ((d : ℚ) / S) = d := by field_simp
  generalize (d : ℚ) / S = t at hq2 h2
  have hu : (2 : ℚ) ^ (-24 : Int) = 1 / 16777216 := by norm_num
  have hη : (2 : ℚ) ^ (-150 : Int) ≤ 1 / 2 ^ 100 := by norm_num
  have hη0 : (0 : ℚ) ≤ (2 : ℚ) ^ (-150 : Int) := by positivity
  generalize (2 : ℚ) ^ (-150 : Int) = η at hq2 hp2 hη hη0
  rw [hu] at hq2 hp2
  have h3 : S * Q ≤ (d : ℚ) + (d : ℚ) * (1 / 16777216) + S * η := by
    have h := mul_le_mul_of_nonneg_left hq2 hS0.le
    have e1 : S * (Q - t) = S * Q - d := by rw [mul_sub, h2]
    have e2 : S * (t * (1 / 16777216) + η) = (d : ℚ) * (1 / 16777216) + S * η := by
      rw [mul_add, ← mul_assoc, h2]
    rw [e1, e2] at h
    linarith
  have h4 : S * η ≤ 2 ^ 32 * η := mul_le_mul_of_nonneg_right hShi hη0
  norm_num at h3 h4 hp2 hShi hdq hη
  linarith


theorem scale_m_nonneg (iw ih fw fh : Int) (hiw : 0 ≤ iw) (hih : 0 ≤ ih) (hfw : 0 ≤ fw)
    (hfh : 0 ≤ fh) : 0 ≤ (scale iw ih fw fh).m := by
  unfold scale
  simp only
  split_ifs
  · exact F32.div_m_nonneg _ _ (F32.ofInt_m_nonneg _ hfw) (F32.ofInt_m_nonneg _ hiw)
  · exact F32.div_m_nonneg _ _ (F32.ofInt_m_nonneg _ hfh) (F32.ofInt_m_nonneg _ hih)

theorem scale_le_x (iw ih fw fh : Int) :
    F32.toRat (scale iw ih fw fh) ≤ F32.toRat (F32.div (F32.ofInt fw) (F32.ofInt iw)) := by
  unfold scale
  simp only
  split_ifs with h
  · exact le_refl _
  · have := (F32.lt_iff _ _).not.mp h
    exact not_lt.mp this

theorem scale_le_y (iw ih fw fh : Int) :
    F32.toRat (scale iw ih fw fh) ≤ F32.toRat (F32.div (F32.ofInt fh) (F32.ofInt ih)) := by
  unfold scale
  simp only
  split_ifs with h
  · exact le_of_lt ((F32.lt_iff _ _).mp h)
  · exact le_refl _

theorem scaled_width_le (iw ih fw fh : Int) (hiw : 0 < iw) (hiw2 : iw < 2 ^ 31)
    (hih : 0 < ih) (hfw : 0 < fw) (hfw2 : fw < 2 ^ 23) (hfh : 0 < fh) :
    scaled_width iw ih fw fh ≤ fw :=
  mul_scale_le iw fw _ hiw hiw2 hfw.le hfw2
    (scale_m_nonneg iw ih fw fh hiw.le hih.le hfw.le hfh.le) (scale_le_x iw ih fw fh)

theorem scaled_height_le (iw ih fw fh : Int) (hiw : 0 < iw) (hih : 0 < ih)
    (hih2 : ih < 2 ^ 31) (hfw : 0 < fw) (hfh : 0 < fh) (hfh2 : fh < 2 ^ 23) :
    scaled_height iw ih fw fh ≤ fh :=
  mul_scale_le ih fh _ hih hih2 hfh.le hfh2
    (scale_m_nonneg iw ih fw fh hiw.le hih.le hfw.le hfh.le) (scale_le_y iw ih fw fh)

theorem scaled_width_nonneg (iw ih fw fh : Int) (hiw : 0 ≤ iw) (hih : 0 ≤ ih) (hfw : 0 ≤ fw)
    (hfh : 0 ≤ fh) : 0 ≤ scaled_width iw ih fw fh :=
  F32.toInt_nonneg _ (F32.mul_m_nonneg _ _ (F32.ofInt_m_nonneg _ hiw)
    (scale_m_nonneg iw ih fw fh hiw hih hfw hfh))

theorem scaled_height_nonneg (iw ih fw fh : Int) (hiw : 0 ≤ iw) (hih : 0 ≤ ih) (hfw : 0 ≤ fw)
    (hfh : 0 ≤ fh) : 0 ≤ scaled_height iw ih fw fh :=
  F32.toInt_nonneg _ (F32.mul_m_nonneg _ _ (F32.ofInt_m_nonneg _ hih)
    (scale_m_nonneg iw ih fw fh hiw hih hfw hfh))

/-- C division by 2 of a non-negative difference is the floor, and centres. -/
theorem tdiv_two_facts (d s : Int) (h : s ≤ d) :
    Int.tdiv (d - s) 2 = (d - s) / 2 ∧ 0 ≤ Int.tdiv (d - s) 2 ∧ Int.tdiv (d - s) 2 + s ≤ d := by
  have e : Int.tdiv (d - s) 2 = (d - s) / 2 := Int.tdiv_eq_ediv (by omega) (by norm_num)
  rw [e]
  refine ⟨rfl, ?_, ?_⟩ <;> omega

/-- The scale factor is positive: `x / scale` never divides by zero. -/
theorem scale_pos (iw ih fw fh : Int) (hiw : 0 < iw) (hiw2 : iw < 2 ^ 31)
    (hih : 0 < ih) (hih2 : ih < 2 ^ 31) (hfw : 0 < fw) (hfw2 : fw < 2 ^ 31)
    (hfh : 0 < fh) (hfh2 : fh < 2 ^ 31) : 0 < (scale iw ih fw fh).m := by
  have key : ∀ s d : Int, 0 < s → s < 2 ^ 31 → 0 < d → d < 2 ^ 31 →
      0 < (F32.div (F32.ofInt d) (F32.ofInt s)).m := by
    intro s d hs hs2 hd hd2
    obtain ⟨hSm, hSlo, hShi⟩ := ofInt_pos_bounds s hs hs2
    obtain ⟨hDm, hDlo, hDhi⟩ := ofInt_pos_bounds d hd hd2
    have hq := F32.div_err (F32.ofInt d) (F32.ofInt s) hDm.le hSm
    apply F32.m_pos_of_toRat_pos
    generalize F32.toRat (F32.div (F32.ofInt d) (F32.ofInt s)) = Q at hq ⊢
    generalize F32.toRat (F32.ofInt s) = S at hq hSlo hShi
    generalize F32.toRat (F32.ofInt d) = D at hq hDlo hDhi
    have hS0 : (0 : ℚ) < S := by linarith
    have hlow : (1 : ℚ) / 2 ^ 33 ≤ D / S := by
      rw [div_le_div_iff₀ (by positivity) hS0]
      norm_num at hShi hDlo ⊢
      linarith
    rw [abs_le] at hq
    obtain ⟨hq1, -⟩ := hq
    norm_num at hq1 hlow
    linarith
  unfold scale
  simp only
  split_ifs
  · exact key iw fw hiw hiw2 hfw hfw2
  · exact key ih fh hih hih2 hfh hfh2

/-! ## The blit loops -/

theorem placed_of_bounds (iw ih fw fh : Int) (hiw : 0 < iw) (hiw2 : iw < 2 ^ 31)
    (hih : 0 < ih) (hih2 : ih < 2 ^ 31) (hfw : 0 < fw) (hfw2 : fw < 2 ^ 23)
    (hfh : 0 < fh) (hfh2 : fh < 2 ^ 23) (hcells : fw * fh < 2 ^ 31) : Placed iw ih fw fh := by
  have hx := tdiv_two_facts fw _ (scaled_width_le iw ih fw fh hiw hiw2 hih hfw hfw2 hfh)
  have hy := tdiv_two_facts fh _ (scaled_height_le iw ih fw fh hiw hih hih2 hfw hfh hfh2)
  exact ⟨hfw, hx.2.1, hx.2.2, hy.2.1, hy.2.2, hcells⟩

theorem to_int32_eq (n : Int) (h0 : -2 ^ 31 ≤ n) (h1 : n < 2 ^ 31) : to_int32 n = n := by
  unfold to_int32
  omega

/-- Inside the placed rectangle no operation of line 226 leaves the range of
`int`. -/
theorem dst_idx_eq (iw ih fw fh : Int) (P : Placed iw ih fw fh) (x y : Int)
    (hx0 : 0 ≤ x) (hx : x < scaled_width iw ih fw fh)
    (hy0 : 0 ≤ y) (hy : y < scaled_height iw ih fw fh) :
    dst_idx iw ih fw fh x y = dst_y iw ih fw fh y * fw + dst_x iw ih fw fh x := by
  obtain ⟨h0, h1, h2, h3, h4, h5⟩ := P
  have a1 : 0 ≤ dst_x iw ih fw fh x := by unfold dst_x; omega
  have a2 : dst_x iw ih fw fh x < fw := by unfold dst_x; omega
  have a3 : 0 ≤ dst_y iw ih fw fh y := by unfold dst_y; omega
  have a4 : dst_y iw ih fw fh y < fh := by unfold dst_y; omega
  have b1 : 0 ≤ dst_y iw ih fw fh y * fw := mul_nonneg a3 h0.le
  have b2 : (dst_y iw ih fw fh y + 1) * fw ≤ fh * fw :=
    mul_le_mul_of_nonneg_right (by omega) h0.le
  have b3 : dst_y iw ih fw fh y * fw + fw ≤ fw * fh := by nlinarith
  unfold dst_idx
  rw [to_int32_eq (dst_y iw ih fw fh y * fw) (by omega) (by omega)]
  exact to_int32_eq _ (by omega) (by omega)

/-- A loop over `0 .. n-1` whose step `x` overwrites exactly the cells it
`hit`s, each with a value that depends on the cell only. -/
theorem foldl_range_cells {α : Type} (V : Nat → α) (hit : Nat → Nat → Prop)
    (f : List α → Nat → List α) (n : Nat)
    (hf : ∀ (fb : List α) (x : Nat), x < n → (f fb x).length = fb.length ∧
      ∀ j, (hit x j → j < fb.length → (f fb x)[j]? = some (V j)) ∧
        (¬ hit x j → (f fb x)[j]? = fb[j]?))
    (fb : List α) :
    ∀ k, k ≤ n → ((List.range k).foldl f fb).length = fb.length ∧
      ∀ j, ((∃ x, x < k ∧ hit x j) → j < fb.length →
          ((List.range k).foldl f fb)[j]? = some (V j)) ∧
        ((∀ x, x < k → ¬ hit x j) → ((List.range k).foldl f fb)[j]? = fb[j]?) := by
  intro k
  induction k with
  | zero =>
    intro _
    refine ⟨rfl, fun j => ⟨?_, fun _ => rfl⟩⟩
    rintro ⟨x, hx, -⟩
    omega
  | succ k ih =>
    intro hk
    obtain ⟨hlen, hcells⟩ := ih (by omega)
    obtain ⟨hlen2, hstep⟩ := hf ((List.range k).foldl f fb) k (by omega)
    rw [List.range_succ, List.foldl_append]
    simp only [List.foldl_cons, List.foldl_nil]
    refine ⟨by rw [hlen2, hlen], fun j => ⟨?_, ?_⟩⟩
    · rintro ⟨x, hx, hxj⟩ hj
      by_cases hkj : hit k j
      · exact (hstep j).1 hkj (by rw [hlen]; exact hj)
      · rw [(hstep j).2 hkj]
        have hxk : x < k := by
          rcases Nat.lt_succ_iff_lt_or_eq.mp hx with h | h
          · exact h
          · subst h; exact absurd hxj hkj
        exact (hcells j).1 ⟨x, hxk, hxj⟩ hj
    · intro hno
      rw [(hstep j).2 (hno k (by omega))]
      exact (hcells j).2 (fun x hx => hno x (by omega))

theorem dst_facts (iw ih fw fh : Int) (P : Placed iw ih fw fh) (x y : Int)
    (hx0 : 0 ≤ x) (hx : x < scaled_width iw ih fw fh)
    (hy0 : 0 ≤ y) (hy : y < scaled_height iw ih fw fh) :
    0 ≤ dst_x iw ih fw fh x ∧ dst_x iw ih fw fh x < fw ∧
    0 ≤ dst_y iw ih fw fh y ∧ dst_y iw ih fw fh y < fh ∧
    dst_guard iw ih fw fh x y = true ∧
    0 ≤ dst_idx iw ih fw fh x y ∧ dst_idx iw ih fw fh x y < fw * fh := by
  have hidx := dst_idx_eq iw ih fw fh P x y hx0 hx hy0 hy
  obtain ⟨h0, h1, h2, h3, h4, h5⟩ := P
  have a1 : 0 ≤ dst_x iw ih fw fh x := by unfold dst_x; omega
  have a2 : dst_x iw ih fw fh x < fw := by unfold dst_x; omega
  have a3 : 0 ≤ dst_y iw ih fw fh y := by unfold dst_y; omega
  have a4 : dst_y iw ih fw fh y < fh := by unfold dst_y; omega
  refine ⟨a1, a2, a3, a4, ?_, ?_, ?_⟩
  · unfold dst_guard
    simp [a2, a4]
  · rw [hidx]
    have := mul_nonneg a3 h0.le
    omega
  · rw [hidx]
    have : (dst_y iw ih fw fh y + 1) * fw ≤ fh * fw :=
      mul_le_mul_of_nonneg_right (by omega) h0.le
    nlinarith

/-- The value the loop body stores for scaled position `(x, y)`. -/
theorem blit_pixel_eq (image_data : List Nat) (iw ih fw fh : Int) (P : Placed iw ih fw fh)
    (fb : List Nat) (x y : Int)
    (hx0 : 0 ≤ x) (hx : x < scaled_width iw ih fw fh)
    (hy0 : 0 ≤ y) (hy : y < scaled_height iw ih fw fh) :
    blit_pixel image_data iw ih fw fh fb x y
      = fb.set (dst_idx iw ih fw fh x y).toNat (sampled_pixel image_data iw ih fw fh x y) := by
  obtain ⟨-, -, -, -, hg, hi, -⟩ := dst_facts iw ih fw fh P x y hx0 hx hy0 hy
  unfold blit_pixel write_cell sampled_pixel
  simp only [hg, hi, if_true]

theorem cell_value_dst_idx (image_data : List Nat) (iw ih fw fh : Int) (P : Placed iw ih fw fh)
    (x y : Int) (hx0 : 0 ≤ x) (hx : x < scaled_width iw ih fw fh)
    (hy0 : 0 ≤ y) (hy : y < scaled_height iw ih fw fh) :
    cell_value image_data iw ih fw fh (dst_idx iw ih fw fh x y).toNat
      = sampled_pixel image_data iw ih fw fh x y := by
  obtain ⟨a1, a2, a3, a4, -, hi, -⟩ := dst_facts iw ih fw fh P x y hx0 hx hy0 hy
  have hfw := P.fw_pos
  unfold cell_value
  rw [Int.toNat_of_nonneg hi]
  have hmod : dst_idx iw ih fw fh x y % fw = dst_x iw ih fw fh x := by
    rw [dst_idx_eq iw ih fw fh P x y hx0 hx hy0 hy]
    rw [Int.add_comm, Int.add_mul_emod_self, Int.emod_eq_of_lt a1 a2]
  have hdiv : dst_idx iw ih fw fh x y / fw = dst_y iw ih fw fh y := by
    rw [dst_idx_eq iw ih fw fh P x y hx0 hx hy0 hy]
    rw [Int.add_comm, Int.add_mul_ediv_right _ _ (ne_of_gt hfw), Int.ediv_eq_zero_of_lt a1 a2]
    simp
  rw [hmod, hdiv]
  unfold dst_x dst_y
  congr 1 <;> omega

theorem blit_row_cells (image_data : List Nat) (iw ih fw fh : Int) (P : Placed iw ih fw fh)
    (fb : List Nat) (y : Int) (hy0 : 0 ≤ y) (hy : y < scaled_height iw ih fw fh) :
    (blit_row image_data iw ih fw fh fb y).length = fb.length ∧
    ∀ j, ((∃ x : Nat, x < (scaled_width iw ih fw fh).toNat ∧
            j = (dst_idx iw ih fw fh x y).toNat) → j < fb.length →
          (blit_row image_data iw ih fw fh fb y)[j]? = some (cell_value image_data iw ih fw fh j)) ∧
      ((∀ x : Nat, x < (scaled_width iw ih fw fh).toNat →
            ¬ j = (dst_idx iw ih fw fh x y).toNat) →
          (blit_row image_data iw ih fw fh fb y)[j]? = fb[j]?) := by
  unfold blit_row
  apply foldl_range_cells (cell_value image_data iw ih fw fh)
    (fun x j => j = (dst_idx iw ih fw fh x y).toNat) _ _ _ fb _ (le_refl _)
  intro fb2 x hx
  have hx1 : (x : Int) < scaled_width iw ih fw fh := by omega
  have hx0 : (0 : Int) ≤ x := Int.ofNat_nonneg x
  rw [blit_pixel_eq image_data iw ih fw fh P fb2 x y hx0 hx1 hy0 hy]
  refine ⟨List.length_set _ _ _, fun j => ⟨?_, ?_⟩⟩
  · intro hj hlt
    subst hj
    rw [List.getElem?_set_self hlt, cell_value_dst_idx image_data iw ih fw fh P x y hx0 hx1 hy0 hy]
  · intro hj
    exact List.getElem?_set_ne (fun h => hj h.symm)

theorem blit_cells (image_data : List Nat) (iw ih fw fh : Int) (P : Placed iw ih fw fh)
    (fb : List Nat) :
    (scale_and_center_image image_data iw ih fb fw fh).length = fb.length ∧
    ∀ j, ((∃ y : Nat, y < (scaled_height iw ih fw fh).toNat ∧
            ∃ x : Nat, x < (scaled_width iw ih fw fh).toNat ∧
              j = (dst_idx iw ih fw fh x y).toNat) → j < fb.length →
          (scale_and_center_image image_data iw ih fb fw fh)[j]?
            = some (cell_value image_data iw ih fw fh j)) ∧
      ((∀ y : Nat, y < (scaled_height iw ih fw fh).toNat →
          ¬ ∃ x : Nat, x < (scaled_width iw ih fw fh).toNat ∧
              j = (dst_idx iw ih fw fh x y).toNat) →
          (scale_and_center_image image_data iw ih fb fw fh)[j]? = fb[j]?) := by
  unfold scale_and_center_image
  apply foldl_range_cells (cell_value image_data iw ih fw fh)
    (fun y j => ∃ x : Nat, x < (scaled_width iw ih fw fh).toNat ∧
      j = (dst_idx iw ih fw fh x y).toNat) _ _ _ fb _ (le_refl _)
  intro fb2 y hy
  have hy1 : (y : Int) < scaled_height iw ih fw fh := by omega
  have hy0 : (0 : Int) ≤ y := Int.ofNat_nonneg y
  obtain ⟨hlen, hc⟩ := blit_row_cells image_data iw ih fw fh P fb2 y hy0 hy1
  refine ⟨hlen, fun j => ⟨fun h hlt => (hc j).1 h hlt, fun h => (hc j).2 ?_⟩⟩
  intro x hx hj
  exact h ⟨x, hx, hj⟩

theorem src_xy_facts (iw ih fw fh : Int) (hiw : 0 < iw) (hih : 0 < ih) (hfw : 0 ≤ fw)
    (hfh : 0 ≤ fh) (x y : Int) (hx0 : 0 ≤ x) (hy0 : 0 ≤ y) :
    src_x iw ih fw fh x
        = min (F32.toInt (F32.div (F32.ofInt x) (scale iw ih fw fh))) (iw - 1) ∧
    src_y iw ih fw fh y
        = min (F32.toInt (F32.div (F32.ofInt y) (scale iw ih fw fh))) (ih - 1) ∧
    0 ≤ src_x iw ih fw fh x ∧ src_x iw ih fw fh x < iw ∧
    0 ≤ src_y iw ih fw fh y ∧ src_y iw ih fw fh y < ih := by
  have hs := scale_m_nonneg iw ih fw fh hiw.le hih.le hfw hfh
  have hsx := F32.toInt_nonneg _ (F32.div_m_nonneg _ _ (F32.ofInt_m_nonneg x hx0) hs)
  have hsy := F32.toInt_nonneg _ (F32.div_m_nonneg _ _ (F32.ofInt_m_nonneg y hy0) hs)
  have ex : src_x iw ih fw fh x
      = min (F32.toInt (F32.div (F32.ofInt x) (scale iw ih fw fh))) (iw - 1) := by
    unfold src_x
    simp only [min_def]
    split_ifs <;> omega
  have ey : src_y iw ih fw fh y
      = min (F32.toInt (F32.div (F32.ofInt y) (scale iw ih fw fh))) (ih - 1) := by
    unfold src_y
    simp only [min_def]
    split_ifs <;> omega
  have bx0 : 0 ≤ src_x iw ih fw fh x := by rw [ex]; exact le_min hsx (by omega)
  have bx1 : src_x iw ih fw fh x < iw := by
    rw [ex]; exact lt_of_le_of_lt (min_le_right _ _) (by omega)
  have by0 : 0 ≤ src_y iw ih fw fh y := by rw [ey]; exact le_min hsy (by omega)
  have by1 : src_y iw ih fw fh y < ih := by
    rw [ey]; exact lt_of_le_of_lt (min_le_right _ _) (by omega)
  exact ⟨ex, ey, bx0, bx1, by0, by1⟩

/-- When the byte count `3 * iw * ih` of the image fits an `int`, no operation
of line 216 leaves the range of `int`. -/
theorem src_idx_eq (iw ih fw fh : Int) (hiw : 0 < iw) (hih : 0 < ih) (hfw : 0 ≤ fw)
    (hfh : 0 ≤ fh) (hsrc : 3 * iw * ih < 2 ^ 31) (x y : Int) (hx0 : 0 ≤ x) (hy0 : 0 ≤ y) :
    src_idx iw ih fw fh x y = (src_y iw ih fw fh y * iw + src_x iw ih fw fh x) * 3 ∧
    0 ≤ (src_y iw ih fw fh y * iw + src_x iw ih fw fh x) * 3 ∧
    (src_y iw ih fw fh y * iw + src_x iw ih fw fh x) * 3 + 2 < 3 * iw * ih := by
  obtain ⟨-, -, bx0, bx1, by0, by1⟩ := src_xy_facts iw ih fw fh hiw hih hfw hfh x y hx0 hy0
  have b1 : 0 ≤ src_y iw ih fw fh y * iw := mul_nonneg by0 hiw.le
  have b2 : (src_y iw ih fw fh y + 1) * iw ≤ ih * iw :=
    mul_le_mul_of_nonneg_right (by omega) hiw.le
  have b3 : src_y iw ih fw fh y * iw + iw ≤ iw * ih := by nlinarith
  have b4 : 3 * (iw * ih) < 2 ^ 31 := by rw [← mul_assoc]; exact hsrc
  have b5 : 3 * iw * ih = 3 * (iw * ih) := mul_assoc 3 iw ih
  refine ⟨?_, by omega, by omega⟩
  unfold src_idx
  rw [to_int32_eq (src_y iw ih fw fh y * iw) (by omega) (by omega),
    to_int32_eq (src_y iw ih fw fh y * iw + src_x iw ih fw fh x) (by omega) (by omega)]
  exact to_int32_eq _ (by omega) (by omega)

theorem src_facts (iw ih fw fh : Int) (hiw : 0 < iw) (hih : 0 < ih) (hfw : 0 ≤ fw)
    (hfh : 0 ≤ fh) (hsrc : 3 * iw * ih < 2 ^ 31) (x y : Int) (hx0 : 0 ≤ x) (hy0 : 0 ≤ y) :
    src_x iw ih fw fh x
        = min (F32.toInt (F32.div (F32.ofInt x) (scale iw ih fw fh))) (iw - 1) ∧
    src_y iw ih fw fh y
        = min (F32.toInt (F32.div (F32.ofInt y) (scale iw ih fw fh))) (ih - 1) ∧
    0 ≤ src_x iw ih fw fh x ∧ src_x iw ih fw fh x < iw ∧
    0 ≤ src_y iw ih fw fh y ∧ src_y iw ih fw fh y < ih ∧
    0 ≤ src_idx iw ih fw fh x y ∧ src_idx iw ih fw fh x y + 2 < 3 * iw * ih := by
  obtain ⟨ex, ey, bx0, bx1, by0, by1⟩ := src_xy_facts iw ih fw fh hiw hih hfw hfh x y hx0 hy0
  obtain ⟨e, c0, c1⟩ := src_idx_eq iw ih fw fh hiw hih hfw hfh hsrc x y hx0 hy0
  rw [e]
  exact ⟨ex, ey, bx0, bx1, by0, by1, c0, c1⟩

/-- The sizes of an image whose byte count fits an `int` fit an `int`. -/
theorem sides_of_bytes (iw ih : Int) (hiw : 0 < iw) (hih : 0 < ih)
    (hsrc : 3 * iw * ih < 2 ^ 31) : iw < 2 ^ 31 ∧ ih < 2 ^ 31 := by
  have h1 : iw ≤ iw * ih := by nlinarith
  have h2 : ih ≤ iw * ih := by nlinarith
  have h3 : 3 * iw * ih = 3 * (iw * ih) := mul_assoc 3 iw ih
  constructor <;> omega

theorem pixel_of_bytes (r g b : Nat) (hr : r < 256) (hg : g < 256) (hb : b < 256) :
    pixel r g b = 0xFF000000 ||| (r <<< 16) ||| (g <<< 8) ||| b := by
  unfold pixel
  apply Nat.mod_eq_of_lt
  have h1 : r <<< 16 < 2 ^ 32 := by rw [Nat.shiftLeft_eq]; omega
  have h2 : g <<< 8 < 2 ^ 32 := by rw [Nat.shiftLeft_eq]; omega
  have h3 : b < 2 ^ 32 := by omega
  have h0 : 0xFF <<< 24 < 2 ^ 32 := by decide
  exact Nat.or_lt_two_pow (Nat.or_lt_two_pow (Nat.or_lt_two_pow h0 h1) h2) h3

theorem getD_lt_of_bytes (image_data : List Nat) (hbytes : ∀ b ∈ image_data, b < 256)
    (i : Nat) : image_data.getD i 0 < 256 := by
  by_cases h : i < image_data.length
  · rw [List.getD_eq_getElem _ _ h]
    exact hbytes _ (List.getElem_mem h)
  · rw [List.getD_eq_default _ _ (by omega)]
    norm_num

theorem read_byte_of_bytes (image_data : List Nat) (hbytes : ∀ b ∈ image_data, b < 256)
    (i : Int) (k : Nat) (hi : 0 ≤ i) :
    read_byte image_data (i + k) = image_data.getD (i.toNat + k) 0 := by
  unfold read_byte
  have h1 : 0 ≤ i + k := by omega
  have h2 : (i + k).toNat = i.toNat + k := by omega
  simp only [h1, if_true, h2]
  exact Nat.mod_eq_of_lt (getD_lt_of_bytes image_data hbytes _)

/-! ## Claims about `scale_and_center_image` -/

/-- C1 (counterexample): a 1x1 source into a 16777219 x 16777219 destination.
`(float)16777219` is 16777220, so `scale` is 16777220 and `scaled_width` is
16777220, larger than the destination width. -/
theorem C1_counterexample_large_destination :
    ¬ (scaled_width 1 1 16777219 16777219 ≤ 16777219 ∧
       scaled_height 1 1 16777219 16777219 ≤ 16777219) := by
  decide

/-- C1 (amended): for source sizes that are positive `int`s and destination
sizes that are positive and below `2^23`, the scaled size computed at lines
190-196 does not exceed the destination size. -/
theorem C1_scaled_size_fits (img_width img_height fb_width fb_height : Int)
    (hiw : 0 < img_width) (hiw2 : img_width < 2 ^ 31)
    (hih : 0 < img_height) (hih2 : img_height < 2 ^ 31)
    (hfw : 0 < fb_width) (hfw2 : fb_width < 2 ^ 23)
    (hfh : 0 < fb_height) (hfh2 : fb_height < 2 ^ 23) :
    scaled_width img_width img_height fb_width fb_height ≤ fb_width ∧
    scaled_height img_width img_height fb_width fb_height ≤ fb_height :=
  ⟨scaled_width_le _ _ _ _ hiw hiw2 hih hfw hfw2 hfh,
   scaled_height_le _ _ _ _ hiw hih hih2 hfw hfh hfh2⟩

/-- C1 (witness): a 1920x1080 source into a 1366x768 destination. -/
theorem C1_scaled_size_fits_witness :
    (0 : Int) < 1920 ∧ (0 : Int) < 1080 ∧ (0 : Int) < 1366 ∧ (0 : Int) < 768 ∧
    scaled_width 1920 1080 1366 768 ≤ 1366 ∧ scaled_height 1920 1080 1366 768 ≤ 768 :=
  ⟨by decide, by decide, by decide, by decide,
   C1_scaled_size_fits 1920 1080 1366 768 (by decide) (by decide) (by decide) (by decide)
     (by decide) (by decide) (by decide) (by decide)⟩

/-- C2 (counterexample): a 1x1 source into a 16777219 x 16777219 destination.
`scaled_width` is 16777220, the C division `(-1) / 2` gives offset 0 where the
floor is -1, and the placed rectangle ends one column past the destination. -/
theorem C2_counterexample_large_destination :
    offset_x 1 1 16777219 16777219 = 0 ∧
    (16777219 - scaled_width 1 1 16777219 16777219) / 2 = -1 ∧
    ¬ (offset_x 1 1 16777219 16777219 + scaled_width 1 1 16777219 16777219 ≤ 16777219) := by
  decide

/-- C2 (amended): for source sizes that are positive `int`s and destination
sizes that are positive and below `2^23`, the offsets of lines 199-200 are the
floors of half the margins, are not negative, and the placed rectangle lies
inside the destination. -/
theorem C2_offsets_center (img_width img_height fb_width fb_height : Int)
    (hiw : 0 < img_width) (hiw2 : img_width < 2 ^ 31)
    (hih : 0 < img_height) (hih2 : img_height < 2 ^ 31)
    (hfw : 0 < fb_width) (hfw2 : fb_width < 2 ^ 23)
    (hfh : 0 < fb_height) (hfh2 : fb_height < 2 ^ 23) :
    offset_x img_width img_height fb_width fb_height
      = (fb_width - scaled_width img_width img_height fb_width fb_height) / 2 ∧
    offset_y img_width img_height fb_width fb_height
      = (fb_height - scaled_height img_width img_height fb_width fb_height) / 2 ∧
    0 ≤ offset_x img_width img_height fb_width fb_height ∧
    0 ≤ offset_y img_width img_height fb_width fb_height ∧
    offset_x img_width img_height fb_width fb_height
      + scaled_width img_width img_height fb_width fb_height ≤ fb_width ∧
    offset_y img_width img_height fb_width fb_height
      + scaled_height img_width img_height fb_width fb_height ≤ fb_height := by
  have hx := tdiv_two_facts fb_width _
    (scaled_width_le img_width img_height fb_width fb_height hiw hiw2 hih hfw hfw2 hfh)
  have hy := tdiv_two_facts fb_height _
    (scaled_height_le img_width img_height fb_width fb_height hiw hih hih2 hfw hfh hfh2)
  exact ⟨hx.1, hy.1, hx.2.1, hy.2.1, hx.2.2, hy.2.2⟩

/-- C2 (witness): a 2x1 source into a 4x4 destination: offsets 0 and 1. -/
theorem C2_offsets_center_witness :
    (0 : Int) < 2 ∧ (0 : Int) < 1 ∧ (0 : Int) < 4 ∧
    offset_x 2 1 4 4 = 0 ∧ offset_y 2 1 4 4 = 1 ∧
    offset_x 2 1 4 4 = (4 - scaled_width 2 1 4 4) / 2 ∧
    offset_y 2 1 4 4 + scaled_height 2 1 4 4 ≤ 4 :=
  have h := C2_offsets_center 2 1 4 4 (by decide) (by decide) (by decide) (by decide)
    (by decide) (by decide) (by decide) (by decide)
  ⟨by decide, by decide, by decide, by decide, by decide, h.1, h.2.2.2.2.2⟩

/-- C3 (counterexample): three inputs.  A 1x1 source into a 16777219 x 16777219
destination: position `x = 16777219` lies in `[0, scaled_width)`, its
destination column is 16777219, which is no column of the destination, and the
guard of line 224 skips the store.  A 1x1 source into a 65535 x 65535
destination: at position `(0, 32769)` the `int` product `32769 * 65535` of
line 226 is 2147516415, past `INT_MAX`; wrapped to 32 bits the index is
negative, so the cell `(32769, 0)` is not the one stored to.  A 26755 x 26755
source into a 26755 x 26755 destination: at position `(26754, 26754)` the
`int` product of line 216 is 2147490072, past `INT_MAX`; wrapped to 32 bits
the source index is negative, so the bytes read are not those of the pixel. -/
theorem C3_counterexample_large_destination :
    ((16777219 : Int) < scaled_width 1 1 16777219 16777219 ∧
      (0 : Int) < scaled_height 1 1 16777219 16777219 ∧
      offset_x 1 1 16777219 16777219 + 16777219 = 16777219 ∧
      dst_guard 1 1 16777219 16777219 16777219 0 = false) ∧
    ((0 : Int) < scaled_width 1 1 65535 65535 ∧
      (32769 : Int) < scaled_height 1 1 65535 65535 ∧
      dst_guard 1 1 65535 65535 0 32769 = true ∧
      (offset_y 1 1 65535 65535 + 32769) * 65535 + (offset_x 1 1 65535 65535 + 0)
        = 2147516415 ∧
      dst_idx 1 1 65535 65535 0 32769 = -2147450881) ∧
    ((26754 : Int) < scaled_width 26755 26755 26755 26755 ∧
      (26754 : Int) < scaled_height 26755 26755 26755 26755 ∧
      (src_y 26755 26755 26755 26755 26754 * 26755
        + src_x 26755 26755 26755 26755 26754) * 3 = 2147490072 ∧
      src_idx 26755 26755 26755 26755 26754 26754 = -2147477224) := by
  decide

/-- C3 (amended): for a source of positive size whose `3*src_w*src_h` bytes
number less than `2^31` and a destination of positive size below `2^23` per
side whose `dst_w*dst_h` cells number less than `2^31`, after
`scale_and_center_image` every cell `(offset_y + y, offset_x + x)` of the
scaled rectangle holds `0xFF000000 | R<<16 | G<<8 | B` of the source pixel at
`(min((int)(x/scale), src_w-1), min((int)(y/scale), src_h-1))`, with the
division done in `float`, and every other cell of the destination keeps its
value. -/
theorem C3_blit_fills_rectangle (image_data fb_data : List Nat)
    (img_width img_height fb_width fb_height : Int)
    (hiw : 0 < img_width) (hih : 0 < img_height)
    (hfw : 0 < fb_width) (hfw2 : fb_width < 2 ^ 23)
    (hfh : 0 < fb_height) (hfh2 : fb_height < 2 ^ 23)
    (hsrc : 3 * img_width * img_height < 2 ^ 31)
    (hdst : fb_width * fb_height < 2 ^ 31)
    (himg : (image_data.length : Int) = 3 * img_width * img_height)
    (hfb : (fb_data.length : Int) = fb_width * fb_height)
    (hbytes : ∀ b ∈ image_data, b < 256) :
    (scale_and_center_image image_data img_width img_height fb_data fb_width fb_height).length
      = fb_data.length ∧
    (∀ x y sx sy : Int, 0 ≤ x → x < scaled_width img_width img_height fb_width fb_height →
      0 ≤ y → y < scaled_height img_width img_height fb_width fb_height →
      sx = min (F32.toInt (F32.div (F32.ofInt x)
            (scale img_width img_height fb_width fb_height))) (img_width - 1) →
      sy = min (F32.toInt (F32.div (F32.ofInt y)
            (scale img_width img_height fb_width fb_height))) (img_height - 1) →
      0 ≤ offset_x img_width img_height fb_width fb_height + x ∧
      offset_x img_width img_height fb_width fb_height + x < fb_width ∧
      0 ≤ offset_y img_width img_height fb_width fb_height + y ∧
      offset_y img_width img_height fb_width fb_height + y < fb_height ∧
      0 ≤ sx ∧ 0 ≤ sy ∧ ((sy * img_width + sx) * 3).toNat + 2 < image_data.length ∧
      (scale_and_center_image image_data img_width img_height fb_data fb_width fb_height).getD
          ((offset_y img_width img_height fb_width fb_height + y) * fb_width
            + (offset_x img_width img_height fb_width fb_height + x)).toNat 0
        = 0xFF000000
          ||| (image_data.getD ((sy * img_width + sx) * 3).toNat 0 <<< 16)
          ||| (image_data.getD (((sy * img_width + sx) * 3).toNat + 1) 0 <<< 8)
          ||| image_data.getD (((sy * img_width + sx) * 3).toNat + 2) 0) ∧
    (∀ cx cy : Int, 0 ≤ cx → cx < fb_width → 0 ≤ cy → cy < fb_height →
      ¬ (offset_x img_width img_height fb_width fb_height ≤ cx ∧
         cx < offset_x img_width img_height fb_width fb_height
                + scaled_width img_width img_height fb_width fb_height ∧
         offset_y img_width img_height fb_width fb_height ≤ cy ∧
         cy < offset_y img_width img_height fb_width fb_height
                + scaled_height img_width img_height fb_width fb_height) →
      (scale_and_center_image image_data img_width img_height fb_data fb_width fb_height).getD
          (cy * fb_width + cx).toNat 0
        = fb_data.getD (cy * fb_width + cx).toNat 0) := by
  obtain ⟨hiw2, hih2⟩ := sides_of_bytes img_width img_height hiw hih hsrc
  have P := placed_of_bounds img_width img_height fb_width fb_height
    hiw hiw2 hih hih2 hfw hfw2 hfh hfh2 hdst
  obtain ⟨hlen, hcells⟩ := blit_cells image_data img_width img_height fb_width fb_height P fb_data
  refine ⟨hlen, ?_, ?_⟩
  · intro x y sx sy hx0 hx hy0 hy hsx hsy
    obtain ⟨a1, a2, a3, a4, -, hi0, hi1⟩ :=
      dst_facts img_width img_height fb_width fb_height P x y hx0 hx hy0 hy
    obtain ⟨ex, ey, bx0, bx1, by0, by1, bi0, bi1⟩ :=
      src_facts img_width img_height fb_width fb_height hiw hih hfw.le hfh.le hsrc x y hx0 hy0
    rw [← hsx] at ex
    rw [← hsy] at ey
    have hidx : src_idx img_width img_height fb_width fb_height x y
        = (sy * img_width + sx) * 3 := by
      rw [(src_idx_eq img_width img_height fb_width fb_height hiw hih hfw.le hfh.le hsrc
        x y hx0 hy0).1, ex, ey]
    unfold dst_x at a1 a2
    unfold dst_y at a3 a4
    refine ⟨a1, a2, a3, a4, by rw [← ex]; exact bx0, by rw [← ey]; exact by0, ?_, ?_⟩
    · rw [← hidx]
      have : ((src_idx img_width img_height fb_width fb_height x y).toNat : Int) + 2
          < (image_data.length : Int) := by
        rw [Int.toNat_of_nonneg bi0, himg]; exact bi1
      exact_mod_cast this
    · have hj : ((offset_y img_width img_height fb_width fb_height + y) * fb_width
            + (offset_x img_width img_height fb_width fb_height + x))
          = dst_idx img_width img_height fb_width fb_height x y :=
        (dst_idx_eq img_width img_height fb_width fb_height P x y hx0 hx hy0 hy).symm
      rw [hj]
      have hjlt : (dst_idx img_width img_height fb_width fb_height x y).toNat
          < fb_data.length := by
        have : ((dst_idx img_width img_height fb_width fb_height x y).toNat : Int)
            < (fb_data.length : Int) := by
          rw [Int.toNat_of_nonneg hi0, hfb]; exact hi1
        exact_mod_cast this
      have hhit : ∃ y' : Nat, y' < (scaled_height img_width img_height fb_width fb_height).toNat ∧
          ∃ x' : Nat, x' < (scaled_width img_width img_height fb_width fb_height).toNat ∧
            (dst_idx img_width img_height fb_width fb_height x y).toNat
              = (dst_idx img_width img_height fb_width fb_height x' y').toNat := by
        refine ⟨y.toNat, by omega, x.toNat, by omega, ?_⟩
        rw [Int.toNat_of_nonneg hx0, Int.toNat_of_nonneg hy0]
      rw [List.getD_eq_getElem?_getD, (hcells _).1 hhit hjlt, Option.getD_some,
        cell_value_dst_idx image_data img_width img_height fb_width fb_height P x y hx0 hx hy0 hy]
      unfold sampled_pixel
      simp only
      rw [to_int32_eq (src_idx img_width img_height fb_width fb_height x y + 1)
          (by omega) (by omega),
        to_int32_eq (src_idx img_width img_height fb_width fb_height x y + 2)
          (by omega) (by omega)]
      have r0 := read_byte_of_bytes image_data hbytes
        (src_idx img_width img_height fb_width fb_height x y) 0 bi0
      have r1 := read_byte_of_bytes image_data hbytes
        (src_idx img_width img_height fb_width fb_height x y) 1 bi0
      have r2 := read_byte_of_bytes image_data hbytes
        (src_idx img_width img_height fb_width fb_height x y) 2 bi0
      simp only [Nat.cast_zero, add_zero, Nat.cast_one, Nat.cast_ofNat] at r0 r1 r2
      rw [r0, r1, r2, hidx]
      exact pixel_of_bytes _ _ _ (getD_lt_of_bytes image_data hbytes _)
        (getD_lt_of_bytes image_data hbytes _) (getD_lt_of_bytes image_data hbytes _)
  · intro cx cy hcx0 hcx hcy0 hcy hout
    rw [List.getD_eq_getElem?_getD, List.getD_eq_getElem?_getD]
    congr 1
    apply (hcells _).2
    rintro y' hy' ⟨x', hx', hj⟩
    apply hout
    have hx1 : (x' : Int) < scaled_width img_width img_height fb_width fb_height := by omega
    have hy1 : (y' : Int) < scaled_height img_width img_height fb_width fb_height := by omega
    obtain ⟨a1, a2, a3, a4, -, hi0, -⟩ :=
      dst_facts img_width img_height fb_width fb_height P x' y'
        (Int.ofNat_nonneg _) hx1 (Int.ofNat_nonneg _) hy1
    have hc0 : 0 ≤ cy * fb_width + cx := by
      have := mul_nonneg hcy0 hfw.le
      omega
    have hj2 : cy * fb_width + cx = dst_idx img_width img_height fb_width fb_height x' y' := by
      have : ((cy * fb_width + cx).toNat : Int)
          = ((dst_idx img_width img_height fb_width fb_height x' y').toNat : Int) := by
        rw [hj]
      rwa [Int.toNat_of_nonneg hc0, Int.toNat_of_nonneg hi0] at this
    rw [dst_idx_eq img_width img_height fb_width fb_height P x' y'
      (Int.ofNat_nonneg _) hx1 (Int.ofNat_nonneg _) hy1] at hj2
    have hmod1 : (cy * fb_width + cx) % fb_width = cx := by
      rw [Int.add_comm, Int.add_mul_emod_self, Int.emod_eq_of_lt hcx0 hcx]
    have hmod2 : (dst_y img_width img_height fb_width fb_height y' * fb_width
        + dst_x img_width img_height fb_width fb_height x') % fb_width
          = dst_x img_width img_height fb_width fb_height x' := by
      rw [Int.add_comm, Int.add_mul_emod_self, Int.emod_eq_of_lt a1 a2]
    have hcxeq : cx = dst_x img_width img_height fb_width fb_height x' := by
      rw [← hmod1, hj2, hmod2]
    have hcyeq : cy = dst_y img_width img_height fb_width fb_height y' := by
      have h3 : cy * fb_width = dst_y img_width img_height fb_width fb_height y' * fb_width := by
        omega
      exact Int.eq_of_mul_eq_mul_right (ne_of_gt hfw) h3
    unfold dst_x at hcxeq
    unfold dst_y at hcyeq
    omega

/-- C3 (witness): the 2x1 source (red, blue) blitted into a zeroed 4x4
destination: rows 1 and 2 are red, red, blue, blue and rows 0 and 3 stay 0. -/
theorem C3_blit_fills_rectangle_witness :
    (∀ b ∈ [255, 0, 0, 0, 0, 255], b < 256) ∧
    (scale_and_center_image [255, 0, 0, 0, 0, 255] 2 1 (List.replicate 16 0) 4 4).length
      = (List.replicate 16 0).length ∧
    scale_and_center_image [255, 0, 0, 0, 0, 255] 2 1 (List.replicate 16 0) 4 4 =
      [0, 0, 0, 0,
       0xFFFF0000, 0xFFFF0000, 0xFF0000FF, 0xFF0000FF,
       0xFFFF0000, 0xFFFF0000, 0xFF0000FF, 0xFF0000FF,
       0, 0, 0, 0] :=
  ⟨by decide,
   (C3_blit_fills_rectangle [255, 0, 0, 0, 0, 255] (List.replicate 16 0) 2 1 4 4
      (by decide) (by decide) (by decide) (by decide) (by decide) (by decide) (by decide)
      (by decide) (by decide) (by decide) (by decide)).1,
   by decide⟩

/-- C10 (counterexample): three inputs.  A 1x1 source into a
33554438 x 33554440 destination: `(float)33554438` is 33554440, so
`scaled_width` is 33554440 and `offset_x = (33554438 - 33554440) / 2 = -1`;
the first iteration `(0, 0)` passes the guard of line 224, which has no lower
bound, and stores at cell index -1.  A 1x1 source into a 65535 x 65535
destination: at iteration `(0, 32769)` the guard passes and the `int` product
`32769 * 65535` of line 226 is 2147516415, past `INT_MAX`; wrapped to 32 bits
the store goes to the negative index -2147450881.  A 26755 x 26755 source into
a 26755 x 26755 destination: at iteration `(26754, 26754)` the `int` product
of line 216 is 2147490072, past `INT_MAX`; wrapped to 32 bits the read is at
the negative index -2147477224. -/
theorem C10_counterexample_negative_offset :
    ((0 : Int) < scaled_width 1 1 33554438 33554440 ∧
      (0 : Int) < scaled_height 1 1 33554438 33554440 ∧
      dst_guard 1 1 33554438 33554440 0 0 = true ∧
      dst_x 1 1 33554438 33554440 0 = -1 ∧
      dst_idx 1 1 33554438 33554440 0 0 = -1) ∧
    ((0 : Int) < scaled_width 1 1 65535 65535 ∧
      (32769 : Int) < scaled_height 1 1 65535 65535 ∧
      dst_guard 1 1 65535 65535 0 32769 = true ∧
      dst_y 1 1 65535 65535 32769 * 65535 + dst_x 1 1 65535 65535 0 = 2147516415 ∧
      dst_idx 1 1 65535 65535 0 32769 = -2147450881) ∧
    ((26754 : Int) < scaled_width 26755 26755 26755 26755 ∧
      (26754 : Int) < scaled_height 26755 26755 26755 26755 ∧
      (src_y 26755 26755 26755 26755 26754 * 26755
        + src_x 26755 26755 26755 26755 26754) * 3 = 2147490072 ∧
      src_idx 26755 26755 26755 26755 26754 26754 = -2147477224) := by
  decide

/-- C10 (amended): for a source of positive size whose `3*src_w*src_h` bytes
number less than `2^31` and a destination of positive size below `2^23` per
side whose `dst_w*dst_h` cells number less than `2^31`, every iteration
`(x, y)` of the loops of `scale_and_center_image` reads the source at indices
`src_idx .. src_idx+2` inside `[0, 3*src_w*src_h)` and stores at a position
inside `[0, dst_w) x [0, dst_h)`, at a cell index inside `[0, dst_w*dst_h)`;
the indices are those the `int` arithmetic of lines 216 and 226 yields. -/
theorem C10_accesses_in_bounds (img_width img_height fb_width fb_height : Int)
    (hiw : 0 < img_width) (hih : 0 < img_height)
    (hfw : 0 < fb_width) (hfw2 : fb_width < 2 ^ 23)
    (hfh : 0 < fb_height) (hfh2 : fb_height < 2 ^ 23)
    (hsrc : 3 * img_width * img_height < 2 ^ 31)
    (hdst : fb_width * fb_height < 2 ^ 31)
    (x y : Int) (hx0 : 0 ≤ x) (hx : x < scaled_width img_width img_height fb_width fb_height)
    (hy0 : 0 ≤ y) (hy : y < scaled_height img_width img_height fb_width fb_height) :
    0 ≤ src_idx img_width img_height fb_width fb_height x y ∧
    src_idx img_width img_height fb_width fb_height x y + 2 < 3 * img_width * img_height ∧
    0 ≤ dst_x img_width img_height fb_width fb_height x ∧
    dst_x img_width img_height fb_width fb_height x < fb_width ∧
    0 ≤ dst_y img_width img_height fb_width fb_height y ∧
    dst_y img_width img_height fb_width fb_height y < fb_height ∧
    0 ≤ dst_idx img_width img_height fb_width fb_height x y ∧
    dst_idx img_width img_height fb_width fb_height x y < fb_width * fb_height := by
  obtain ⟨hiw2, hih2⟩ := sides_of_bytes img_width img_height hiw hih hsrc
  have P := placed_of_bounds img_width img_height fb_width fb_height
    hiw hiw2 hih hih2 hfw hfw2 hfh hfh2 hdst
  obtain ⟨a1, a2, a3, a4, -, hi0, hi1⟩ :=
    dst_facts img_width img_height fb_width fb_height P x y hx0 hx hy0 hy
  obtain ⟨-, -, -, -, -, -, bi0, bi1⟩ :=
    src_facts img_width img_height fb_width fb_height hiw hih hfw.le hfh.le hsrc x y hx0 hy0
  exact ⟨bi0, bi1, a1, a2, a3, a4, hi0, hi1⟩

/-- C10 (witness): the last iteration `(3, 1)` of a 2x1 source into a 4x4
destination reads bytes 3..5 of 6 and stores at cell 11 of 16. -/
theorem C10_accesses_in_bounds_witness :
    (3 : Int) < scaled_width 2 1 4 4 ∧ (1 : Int) < scaled_height 2 1 4 4 ∧
    (3 : Int) * 2 * 1 < 2 ^ 31 ∧ (4 : Int) * 4 < 2 ^ 31 ∧
    src_idx 2 1 4 4 3 1 = 3 ∧ dst_idx 2 1 4 4 3 1 = 11 ∧
    src_idx 2 1 4 4 3 1 + 2 < 3 * 2 * 1 ∧ dst_idx 2 1 4 4 3 1 < 4 * 4 :=
  have h := C10_accesses_in_bounds 2 1 4 4 (by decide) (by decide) (by decide) (by decide)
    (by decide) (by decide) (by decide) (by decide) 3 1 (by decide) (by decide) (by decide)
    (by decide)
  ⟨by decide, by decide, by decide, by decide, by decide, by decide, h.2.1, h.2.2.2.2.2.2.2⟩

/-! ## Mode selection -/

theorem mode_area_eq (m : drmModeModeInfo) (h : m.hdisplay * m.vdisplay < 2 ^ 31) :
    mode_area m = ((m.hdisplay * m.vdisplay : Nat) : Int) := by
  unfold mode_area to_int32
  have h1 : ((m.hdisplay : Int) * (m.vdisplay : Int)) = ((m.hdisplay * m.vdisplay : Nat) : Int) := by
    push_cast; rfl
  rw [h1]
  generalize m.hdisplay * m.vdisplay = a at h
  omega

/-- The mode loop from a state `(cur, a)`: either no mode of the list beats
`a` and the state is kept, or the result is the first mode of largest area. -/
theorem select_mode_fold (modes : List drmModeModeInfo) :
    ∀ (cur : drmModeModeInfo) (a : Int),
      ((∀ m ∈ modes, mode_area m ≤ a) ∧ modes.foldl select_mode_step (cur, a) = (cur, a)) ∨
      (∃ pre sel post, modes = pre ++ sel :: post ∧
        modes.foldl select_mode_step (cur, a) = (sel, mode_area sel) ∧
        a < mode_area sel ∧
        (∀ m ∈ pre, mode_area m < mode_area sel) ∧
        (∀ m ∈ post, mode_area m ≤ mode_area sel)) := by
  induction modes with
  | nil =>
    intro cur a
    left
    exact ⟨fun m hm => absurd hm (List.not_mem_nil m), rfl⟩
  | cons m rest ih =>
    intro cur a
    rw [List.foldl_cons]
    by_cases hgt : mode_area m > a
    · have hstep : select_mode_step (cur, a) m = (m, mode_area m) := by
        unfold select_mode_step; simp [hgt]
      rw [hstep]
      rcases ih m (mode_area m) with ⟨hall, hres⟩ | ⟨pre, sel, post, hl, hres, hlt, hpre, hpost⟩
      · right
        exact ⟨[], m, rest, rfl, hres, hgt, fun x hx => absurd hx (List.not_mem_nil x), hall⟩
      · right
        refine ⟨m :: pre, sel, post, by rw [hl]; rfl, hres, lt_trans hgt hlt, ?_, hpost⟩
        intro x hx
        rcases List.mem_cons.mp hx with h | h
        · rw [h]; exact hlt
        · exact hpre x h
    · have hstep : select_mode_step (cur, a) m = (cur, a) := by
        unfold select_mode_step; simp [hgt]
      rw [hstep]
      rcases ih cur a with ⟨hall, hres⟩ | ⟨pre, sel, post, hl, hres, hlt, hpre, hpost⟩
      · left
        refine ⟨?_, hres⟩
        intro x hx
        rcases List.mem_cons.mp hx with h | h
        · rw [h]; exact not_lt.mp hgt
        · exact hall x h
      · right
        refine ⟨m :: pre, sel, post, by rw [hl]; rfl, hres, hlt, ?_, hpost⟩
        intro x hx
        rcases List.mem_cons.mp hx with h | h
        · rw [h]; exact lt_of_le_of_lt (not_lt.mp hgt) hlt
        · exact hpre x h

theorem select_mode_first_max (mode0 : drmModeModeInfo) (modes : List drmModeModeInfo)
    (hpos : ∃ m ∈ modes, 0 < m.hdisplay * m.vdisplay)
    (hfit : ∀ m ∈ modes, m.hdisplay * m.vdisplay < 2 ^ 31) :
    ∃ pre post, modes = pre ++ select_mode mode0 modes :: post ∧
      (∀ m ∈ pre, m.hdisplay * m.vdisplay
        < (select_mode mode0 modes).hdisplay * (select_mode mode0 modes).vdisplay) ∧
      (∀ m ∈ post, m.hdisplay * m.vdisplay
        ≤ (select_mode mode0 modes).hdisplay * (select_mode mode0 modes).vdisplay) := by
  unfold select_mode
  rcases select_mode_fold modes mode0 0 with ⟨hall, -⟩ | ⟨pre, sel, post, hl, hres, -, hpre, hpost⟩
  · exfalso
    obtain ⟨m, hm, hmpos⟩ := hpos
    have h1 := hall m hm
    rw [mode_area_eq m (hfit m hm)] at h1
    have : ((m.hdisplay * m.vdisplay : Nat) : Int) > 0 := by exact_mod_cast hmpos
    omega
  · rw [hres]
    have hsel : sel ∈ modes := by rw [hl]; simp
    refine ⟨pre, post, hl, ?_, ?_⟩
    · intro m hm
      have hmm : m ∈ modes := by rw [hl]; simp [hm]
      have := hpre m hm
      rw [mode_area_eq m (hfit m hmm), mode_area_eq sel (hfit sel hsel)] at this
      exact_mod_cast this
    · intro m hm
      have hmm : m ∈ modes := by rw [hl]; simp [hm]
      have := hpost m hm
      rw [mode_area_eq m (hfit m hmm), mode_area_eq sel (hfit sel hsel)] at this
      exact_mod_cast this

/-! ## Connector and encoder scans -/

theorem scan_connectors_find (cs : List drmModeConnector) :
    ∀ i, (scan_connectors cs i).1.map Ptr.obj = cs.find? usable := by
  induction cs with
  | nil => intro i; rfl
  | cons c rest ih =>
    intro i
    unfold scan_connectors
    by_cases h : c.connection = DRM_MODE_CONNECTED ∧ c.modes.length > 0
    · have hu : usable c = true := by unfold usable; simp [h.1, h.2]
      simp only [h, and_self, if_true, Option.map_some', List.find?_cons, hu]
    · have hu : usable c = false := by
        unfold usable
        rcases not_and_or.mp h with h1 | h1 <;> simp [h1]
      simp only [h, if_false, List.find?_cons, hu]
      exact ih (i + 1)

theorem cleanup_drm_calls_eq (dev : drm_device) :
    cleanup_drm_calls dev = (held_resources dev).map Event.release := by
  unfold cleanup_drm_calls held_resources reverse_acquisition_order
  simp only [List.filterMap_cons, List.filterMap_nil, slot_resource]
  by_cases h1 : dev.map ≠ 0 ∧ dev.map ≠ MAP_FAILED <;>
  by_cases h2 : dev.fb_id ≠ 0 <;>
  by_cases h3 : dev.handle ≠ 0 <;>
  by_cases h4 : dev.fd ≥ 0 <;>
  cases dev.crtc <;> cases dev.encoder <;> cases dev.connector <;> cases dev.resources <;>
  simp [h1, h2, h3, h4]

/-- The five ways through `find_drm_device`, started on the zeroed state. -/
theorem find_drm_device_cases (w : World) :
    (w.open_result < 0 ∧ ∃ d, find_drm_device w drm_device_zero
        = ⟨-1, d, [Event.fail Res.device]⟩) ∨
    (0 ≤ w.open_result ∧ w.resources = none ∧ ∃ d, find_drm_device w drm_device_zero
        = ⟨-1, d, [Event.acquire Res.device, Event.fail Res.resources,
            Event.release Res.device]⟩) ∨
    (0 ≤ w.open_result ∧ ∃ res, w.resources = some res ∧
      (scan_connectors res.connectors 0).1 = none ∧
      ∃ d, d.connector = none ∧ find_drm_device w drm_device_zero
        = ⟨-1, d, [Event.acquire Res.device, Event.acquire Res.resources]
            ++ (scan_connectors res.connectors 0).2
            ++ [Event.release Res.resources, Event.release Res.device]⟩) ∨
    (0 ≤ w.open_result ∧ ∃ res p, w.resources = some res ∧
      (scan_connectors res.connectors 0).1 = some p ∧
      (find_encoder w res p.obj).1 = none ∧
      ∃ d, d.connector = some p ∧ d.mode = select_mode ⟨0, 0, 0⟩ p.obj.modes ∧
        find_drm_device w drm_device_zero
        = ⟨-1, d, [Event.acquire Res.device, Event.acquire Res.resources]
            ++ (scan_connectors res.connectors 0).2 ++ (find_encoder w res p.obj).2
            ++ [Event.release p.res, Event.release Res.resources,
                Event.release Res.device]⟩) ∨
    (0 ≤ w.open_result ∧ ∃ res p e, w.resources = some res ∧
      (scan_connectors res.connectors 0).1 = some p ∧
      (find_encoder w res p.obj).1 = some e ∧
      ∃ d, d.fd = w.open_result ∧ d.resources = some ⟨Res.resources, res⟩ ∧
        d.connector = some p ∧ d.encoder = some e ∧
        d.crtc = (if e.obj.crtc_id ≠ 0 then (find_crtc w e.obj).1 else none) ∧
        d.mode = select_mode ⟨0, 0, 0⟩ p.obj.modes ∧
        d.fb_id = 0 ∧ d.map = 0 ∧ d.handle = 0 ∧
        find_drm_device w drm_device_zero
        = ⟨0, d, [Event.acquire Res.device, Event.acquire Res.resources]
            ++ (scan_connectors res.connectors 0).2 ++ (find_encoder w res p.obj).2
            ++ (find_crtc w e.obj).2⟩) := by
  by_cases hfd : w.open_result < 0
  · left
    refine ⟨hfd, (find_drm_device w drm_device_zero).dev, ?_⟩
    unfold find_drm_device
    simp only [hfd, if_true]
  · right
    have hfd0 : 0 ≤ w.open_result := by omega
    cases hres : w.resources with
    | none =>
      left
      refine ⟨hfd0, rfl, (find_drm_device w drm_device_zero).dev, ?_⟩
      unfold find_drm_device
      simp only [hfd, if_false, hres]
    | some res =>
      right
      cases hsc : (scan_connectors res.connectors 0).1 with
      | none =>
        left
        refine ⟨hfd0, res, rfl, hsc, (find_drm_device w drm_device_zero).dev, ?_, ?_⟩
        · unfold find_drm_device
          simp only [hfd, if_false, hres, hsc]
          rfl
        · unfold find_drm_device
          simp only [hfd, if_false, hres, hsc]
      | some p =>
        right
        cases hfe : (find_encoder w res p.obj).1 with
        | none =>
          left
          refine ⟨hfd0, res, p, rfl, hsc, hfe, (find_drm_device w drm_device_zero).dev, ?_, ?_, ?_⟩
          · unfold find_drm_device
            simp only [hfd, if_false, hres, hsc, hfe]
          · unfold find_drm_device
            simp only [hfd, if_false, hres, hsc, hfe]
            rfl
          · unfold find_drm_device
            simp only [hfd, if_false, hres, hsc, hfe]
        | some e =>
          right
          refine ⟨hfd0, res, p, e, rfl, hsc, hfe, (find_drm_device w drm_device_zero).dev,
            ?_, ?_, ?_, ?_, ?_, ?_, ?_, ?_, ?_, ?_⟩
          all_goals unfold find_drm_device
          all_goals simp only [hfd, if_false, hres, hsc, hfe]
          all_goals (by_cases hc : e.obj.crtc_id ≠ 0 <;> simp [hc, drm_device_zero])

theorem scan_connectors_events (cs : List drmModeConnector) :
    ∀ i, ∀ ev ∈ (scan_connectors cs i).2,
      ∃ j, ev = Event.acquire (Res.connector j) ∨ ev = Event.release (Res.connector j) := by
  induction cs with
  | nil => intro i ev h; simp [scan_connectors] at h
  | cons c rest ih =>
    intro i ev h
    unfold scan_connectors at h
    split_ifs at h with hc
    · simp only [List.mem_singleton] at h
      exact ⟨i, Or.inl h⟩
    · simp only [List.mem_cons] at h
      rcases h with h | h | h
      · exact ⟨i, Or.inl h⟩
      · exact ⟨i, Or.inr h⟩
      · exact ih (i + 1) ev h

theorem usable_eq :
    usable = fun c => decide (c.connection = DRM_MODE_CONNECTED) && decide (c.modes ≠ []) := by
  funext c
  unfold usable
  cases c.modes <;> simp

/-- C4 (counterexample): the connected connector advertises the single mode
1920x0.  Its area 0 is not greater than the initial `area = 0`, so line 93
never runs and `dev->mode` keeps the zeroed mode of line 296, which is not the
advertised mode. -/
theorem C4_counterexample_zero_area :
    world_zero_area.resources.map (fun r => r.connectors.map (fun c => c.modes))
      = some [[⟨1920, 0, 60⟩]] ∧
    (find_drm_device world_zero_area drm_device_zero).ret = 0 ∧
    (find_drm_device world_zero_area drm_device_zero).dev.mode = ⟨0, 0, 0⟩ ∧
    (find_drm_device world_zero_area drm_device_zero).dev.mode
      ∉ [(⟨1920, 0, 60⟩ : drmModeModeInfo)] := by
  decide

/-- C4 (amended): when the selected connector advertises at least one mode of
non-zero area and every `hdisplay * vdisplay` is below `2^31`, the mode that
`find_drm_device` stores in `dev->mode` is the first mode of the list whose
area is the largest: every earlier mode has a smaller area and no later mode
has a larger one. -/
theorem C4_mode_selection (w : World) (res : drmModeRes) (c : drmModeConnector)
    (hopen : 0 ≤ w.open_result) (hres : w.resources = some res)
    (hc : res.connectors.find?
      (fun c => decide (c.connection = DRM_MODE_CONNECTED) && decide (c.modes ≠ [])) = some c)
    (hpos : ∃ m ∈ c.modes, 0 < m.hdisplay * m.vdisplay)
    (hfit : ∀ m ∈ c.modes, m.hdisplay * m.vdisplay < 2 ^ 31) :
    ∃ pre post,
      c.modes = pre ++ (find_drm_device w drm_device_zero).dev.mode :: post ∧
      (∀ m ∈ pre, m.hdisplay * m.vdisplay
        < (find_drm_device w drm_device_zero).dev.mode.hdisplay
            * (find_drm_device w drm_device_zero).dev.mode.vdisplay) ∧
      (∀ m ∈ post, m.hdisplay * m.vdisplay
        ≤ (find_drm_device w drm_device_zero).dev.mode.hdisplay
            * (find_drm_device w drm_device_zero).dev.mode.vdisplay) := by
  rw [← usable_eq] at hc
  have hmode : (find_drm_device w drm_device_zero).dev.mode = select_mode ⟨0, 0, 0⟩ c.modes := by
    have hfind := scan_connectors_find res.connectors 0
    rcases find_drm_device_cases w with ⟨hfd, d, hd⟩ | ⟨hfd, hres2, d, hd⟩ |
      ⟨hfd, res2, hres2, hsc, d, -, hd⟩ | ⟨hfd, res2, p, hres2, hsc, hfe, d, -, hm, hd⟩ |
      ⟨hfd, res2, p, e, hres2, hsc, hfe, d, -, -, -, -, -, hm, -, -, -, hd⟩
    · omega
    · rw [hres] at hres2; simp at hres2
    · rw [hres] at hres2
      simp only [Option.some.injEq] at hres2
      subst hres2
      rw [hsc, hc] at hfind
      simp at hfind
    · rw [hres] at hres2
      simp only [Option.some.injEq] at hres2
      subst hres2
      rw [hsc, hc] at hfind
      simp only [Option.map_some', Option.some.injEq] at hfind
      rw [hd]
      simp only
      rw [hm, hfind]
    · rw [hres] at hres2
      simp only [Option.some.injEq] at hres2
      subst hres2
      rw [hsc, hc] at hfind
      simp only [Option.map_some', Option.some.injEq] at hfind
      rw [hd]
      simp only
      rw [hm, hfind]
  rw [hmode]
  exact select_mode_first_max _ _ hpos hfit

/-- C4 (witness): in `world_ok` the connector advertises 1024x768, 1920x1080@60,
1920x1080@50, 800x600; the stored mode is 1920x1080@60, the first of the two
largest. -/
theorem C4_mode_selection_witness :
    (find_drm_device world_ok drm_device_zero).dev.mode = ⟨1920, 1080, 60⟩ ∧
    ∃ pre post,
      [(⟨1024, 768, 60⟩ : drmModeModeInfo), ⟨1920, 1080, 60⟩, ⟨1920, 1080, 50⟩, ⟨800, 600, 60⟩]
        = pre ++ (find_drm_device world_ok drm_device_zero).dev.mode :: post ∧
      (∀ m ∈ pre, m.hdisplay * m.vdisplay
        < (find_drm_device world_ok drm_device_zero).dev.mode.hdisplay
            * (find_drm_device world_ok drm_device_zero).dev.mode.vdisplay) ∧
      (∀ m ∈ post, m.hdisplay * m.vdisplay
        ≤ (find_drm_device world_ok drm_device_zero).dev.mode.hdisplay
            * (find_drm_device world_ok drm_device_zero).dev.mode.vdisplay) :=
  ⟨by decide,
   C4_mode_selection world_ok
     { connectors :=
          [⟨31, 0, 2, []⟩,
           ⟨32, 7, DRM_MODE_CONNECTED,
             [⟨1024, 768, 60⟩, ⟨1920, 1080, 60⟩, ⟨1920, 1080, 50⟩, ⟨800, 600, 60⟩]⟩],
        encoders := [⟨6, 0⟩, ⟨7, 5⟩] }
     ⟨32, 7, DRM_MODE_CONNECTED,
       [⟨1024, 768, 60⟩, ⟨1920, 1080, 60⟩, ⟨1920, 1080, 50⟩, ⟨800, 600, 60⟩]⟩
     (by decide) rfl (by decide) ⟨⟨1024, 768, 60⟩, by decide, by decide⟩ (by decide)⟩

/-- C5: among the connectors reported by the device, `find_drm_device` keeps
the first one that is connected and has a non-empty mode list; when there is
none it returns -1, and `main` then returns 1 with no call that creates,
registers or maps a buffer in its trace. -/
theorem C5_connector_selection (w : World) (res : drmModeRes)
    (hopen : 0 ≤ w.open_result) (hres : w.resources = some res) :
    (find_drm_device w drm_device_zero).dev.connector.map Ptr.obj
      = res.connectors.find?
          (fun c => decide (c.connection = DRM_MODE_CONNECTED) && decide (c.modes ≠ [])) ∧
    (res.connectors.find?
          (fun c => decide (c.connection = DRM_MODE_CONNECTED) && decide (c.modes ≠ [])) = none →
      (find_drm_device w drm_device_zero).ret = -1 ∧
      (main w 2).1 = 1 ∧
      ∀ ev ∈ (main w 2).2,
        ev ≠ Event.acquire Res.dumb_buffer ∧ ev ≠ Event.fail Res.dumb_buffer ∧
        ev ≠ Event.acquire Res.framebuffer ∧ ev ≠ Event.fail Res.framebuffer ∧
        ev ≠ Event.acquire Res.mapping ∧ ev ≠ Event.fail Res.mapping) := by
  rw [← usable_eq]
  have hfind := scan_connectors_find res.connectors 0
  rcases find_drm_device_cases w with ⟨hfd, d, hd⟩ | ⟨hfd, hres2, d, hd⟩ |
    ⟨hfd, res2, hres2, hsc, d, hdc, hd⟩ | ⟨hfd, res2, p, hres2, hsc, hfe, d, hdc, -, hd⟩ |
    ⟨hfd, res2, p, e, hres2, hsc, hfe, d, -, -, hdc, -, -, -, -, -, -, hd⟩
  · omega
  · rw [hres] at hres2; simp at hres2
  · rw [hres] at hres2
    simp only [Option.some.injEq] at hres2
    subst hres2
    rw [hsc] at hfind
    simp only [Option.map_none'] at hfind
    have hmain : main w 2 = (1, (find_drm_device w drm_device_zero).trace) := by
      unfold main
      simp [hd]
    rw [hmain, hd]
    refine ⟨?_, fun _ => ⟨rfl, rfl, ?_⟩⟩
    · show d.connector.map Ptr.obj = _
      rw [hdc]
      exact hfind
    · intro ev hev
      have hev2 : ev ∈ [Event.acquire Res.device, Event.acquire Res.resources]
          ++ (scan_connectors res.connectors 0).2
          ++ [Event.release Res.resources, Event.release Res.device] := hev
      simp only [List.mem_append, List.mem_cons, List.mem_singleton, List.not_mem_nil,
        or_false] at hev2
      rcases hev2 with ((h | h) | h) | (h | h)
      · rw [h]; simp
      · rw [h]; simp
      · obtain ⟨j, hj | hj⟩ := scan_connectors_events res.connectors 0 ev h <;> rw [hj] <;> simp
      · rw [h]; simp
      · rw [h]; simp
  · rw [hres] at hres2
    simp only [Option.some.injEq] at hres2
    subst hres2
    rw [hsc] at hfind
    rw [hd]
    simp only [hdc]
    refine ⟨hfind, fun h => ?_⟩
    rw [← hfind] at h
    simp at h
  · rw [hres] at hres2
    simp only [Option.some.injEq] at hres2
    subst hres2
    rw [hsc] at hfind
    rw [hd]
    simp only [hdc]
    refine ⟨hfind, fun h => ?_⟩
    rw [← hfind] at h
    simp at h

/-- C5 (witness): in `world_no_output` both connectors are unplugged:
`find_drm_device` returns -1 and `main` returns 1 after closing what it
opened; in `world_ok` the second connector, the first connected one, is kept. -/
theorem C5_connector_selection_witness :
    (find_drm_device world_no_output drm_device_zero).ret = -1 ∧
    main world_no_output 2 =
      (1, [Event.acquire Res.device, Event.acquire Res.resources,
           Event.acquire (Res.connector 0), Event.release (Res.connector 0),
           Event.acquire (Res.connector 1), Event.release (Res.connector 1),
           Event.release Res.resources, Event.release Res.device]) ∧
    ((find_drm_device world_ok drm_device_zero).dev.connector.map Ptr.obj).map
        (fun c => c.connector_id) = some 32 ∧
    (main world_no_output 2).1 = 1 :=
  ⟨by decide, by decide, by decide,
   ((C5_connector_selection world_no_output
      { connectors := [⟨31, 0, 2, []⟩, ⟨32, 0, 2, []⟩], encoders := [⟨6, 0⟩] }
      (by decide) rfl).2 (by decide)).2.1⟩

/-- C6: the release calls of `cleanup_drm` are the fixed order mapping,
framebuffer, buffer handle, controller, encoder, connector, resource list,
device, restricted to the slots that hold a resource; on a state where only
the descriptor is open the only call is the close of the device. -/
theorem C6_cleanup_order (dev : drm_device) :
    (cleanup_drm dev).2
      = ([Slot.mapping, Slot.framebuffer, Slot.buffer_handle, Slot.controller, Slot.encoder,
          Slot.connector, Slot.resource_list, Slot.device].filterMap
            (slot_resource dev)).map Event.release ∧
    (0 ≤ dev.fd → dev.map = 0 → dev.fb_id = 0 → dev.handle = 0 → dev.crtc = none →
      dev.encoder = none → dev.connector = none → dev.resources = none →
      (cleanup_drm dev).2 = [Event.release Res.device]) := by
  constructor
  · exact cleanup_drm_calls_eq dev
  · intro h1 h2 h3 h4 h5 h6 h7 h8
    have h1' : dev.fd ≥ 0 := h1
    unfold cleanup_drm cleanup_drm_calls
    simp [h1', h2, h3, h4, h5, h6, h7, h8]

/-- C6 (witness): on the state with only descriptor 3 open, `cleanup_drm`
makes exactly one call, the close. -/
theorem C6_cleanup_order_witness :
    (0 : Int) ≤ dev_only_open.fd ∧ dev_only_open.map = 0 ∧
    (cleanup_drm dev_only_open).2 = [Event.release Res.device] :=
  ⟨by decide, by decide,
   (C6_cleanup_order dev_only_open).2 (by decide) rfl rfl rfl rfl rfl rfl rfl⟩

/-- C8 (code evaluated at the failing input): for a 1366x768 mode whose buffer
has a pitch of 5504 bytes, the store for the first pixel of row 1 of a
1366x768 image goes to byte offset 5464 = 1 * 1366 * 4 of the mapped buffer,
not to 5504 = 1 * pitch; for every state and position the offset written is
four times the `int` index `dst_y * hdisplay + dst_x`, in which `pitch` does
not occur. -/
theorem C8_store_offset_ignores_pitch :
    dev_1366.pitch = 5504 ∧ 4 * dev_1366.mode.hdisplay = 5464 ∧
    dst_x 1366 768 1366 768 0 = 0 ∧ dst_y 1366 768 1366 768 1 = 1 ∧
    display_image_store_offset dev_1366 ⟨1366, 768, []⟩ 0 1 = 5464 ∧
    dst_y 1366 768 1366 768 1 * dev_1366.pitch + dst_x 1366 768 1366 768 0 * 4 = 5504 ∧
    display_image_store_offset dev_1366 ⟨1366, 768, []⟩ 0 1
      = dst_y 1366 768 1366 768 1 * dev_1366.mode.hdisplay * 4
        + dst_x 1366 768 1366 768 0 * 4 ∧
    (∀ (dev : drm_device) (img : Image) (x y : Int),
      display_image_store_offset dev img x y
        = 4 * to_int32
            (to_int32 (dst_y img.width img.height dev.mode.hdisplay dev.mode.vdisplay y
                * dev.mode.hdisplay)
              + dst_x img.width img.height dev.mode.hdisplay dev.mode.vdisplay x)) := by
  refine ⟨by decide, by decide, by decide, by decide, by decide, by decide, by decide, ?_⟩
  intro dev img x y
  rfl

end DrmDisplay
